import Mathlib

/-!
Verification of the GuildActivityTracker synchronization engine
(`guild_activity_bridge.py`) against its natural-language specification.

The Python source is shallowly embedded: dictionaries become association
lists (`List (String × α)`, unique keys where the source guarantees them),
Python `int` becomes `Int`, fallible/raising code returns `Except` or
`Option`, and the network is an oracle function from attempt number to
outcome.  Field accesses of the form `d.get(k, default) or default`
collapse "key absent" and "falsy value" to the same result in the source,
so such fields are embedded as plain values whose zero/empty value plays
the role of the absent key.
-/

namespace GuildBridge

/-- Association-list lookup, mirroring Python `dict` key lookup
(`d[k]` / `k in d`).  First binding wins, as in a dict with unique keys. -/
def alookup {α : Type} : List (String × α) → String → Option α
  | [], _ => none
  | (k, v) :: rest, key => if k = key then some v else alookup rest key

/-- Association-list insert-or-replace, mirroring Python `d[k] = v`:
an existing key keeps its position and gets the new value, a new key is
appended at the end. -/
def upsert {α : Type} (key : String) (v : α) : List (String × α) → List (String × α)
  | [] => [(key, v)]
  | (k, w) :: rest => if k = key then (key, v) :: rest else (k, w) :: upsert key v rest

/-- Stable insertion into a list sorted by the boolean relation le
(le x y meaning x may come before y).  Mirrors the stability of Python
list.sort: an inserted element goes before the first element it may
precede, so equal keys keep their original relative order. -/
def insertSorted {α : Type} (le : α → α → Bool) (x : α) : List α → List α
  | [] => [x]
  | y :: ys => if le x y then x :: y :: ys else y :: insertSorted le x ys

/-- Stable sort by the boolean relation le; behaviourally equivalent to
Python list.sort with the corresponding key/reverse arguments. -/
def sortStable {α : Type} (le : α → α → Bool) : List α → List α
  | [] => []
  | x :: xs => insertSorted le x (sortStable le xs)

/-- Structural worker for `chunksOf`; the fuel argument is an upper
bound on the list length, so recursion is structural and the definition
evaluates inside the kernel. -/
def chunksOfGo {α : Type} (bs : Nat) : Nat → List α → List (List α)
  | _, [] => []
  | 0, _ :: _ => []
  | fuel + 1, x :: xs =>
    let b := max 1 bs
    (x :: xs).take b :: chunksOfGo bs fuel ((x :: xs).drop b)

/-- Split a list into consecutive chunks, mirroring the Python slicing
loop `for i in range(0, len(l), bs)`.  The source only calls this with
`bs ≥ 10`; `max 1` only guards termination for degenerate arguments. -/
def chunksOf {α : Type} (bs : Nat) (l : List α) : List (List α) :=
  chunksOfGo bs l.length l

/-- Ceiling division on naturals, mirroring `math.ceil(a / b)` for the
positive divisors used by the source.  Python string operations are
embedded character-wise over `String.data` throughout this file. -/
def ceilDiv (a b : Nat) : Nat := (a + b - 1) / b

/-- Python `s.strip()`: remove leading and trailing whitespace. -/
def strStrip (s : String) : String :=
  ⟨((s.data.dropWhile Char.isWhitespace).reverse.dropWhile Char.isWhitespace).reverse⟩

/-- Python `s.startswith(pre)`. -/
def strStartsWith (s pre : String) : Bool := pre.data.isPrefixOf s.data

/-- Lexicographic order on character lists (Python string comparison). -/
def charListLt : List Char → List Char → Bool
  | [], [] => false
  | [], _ :: _ => true
  | _ :: _, [] => false
  | a :: as, b :: bs => if a < b then true else if b < a then false else charListLt as bs

/-- Python `a < b` on strings: lexicographic by code point. -/
def strLt (a b : String) : Bool := charListLt a.data b.data

/-- Python `full.split("-", 1)[0]`: the part of a name before the first
hyphen (`_short_name` in the source). -/
def shortName (full : String) : String :=
  ⟨full.data.takeWhile (fun c => c ≠ '-')⟩

/-- `_canonicalize_player_key`: append `-realm` to a bare name that has
no hyphen, when a default realm is known. -/
def canonicalizePlayerKey (name : String) (defaultRealm : String) : String :=
  let n := strStrip name
  if n = "" then n
  else if n.data.any (fun c => c == '-') then n
  else if defaultRealm = "" then n
  else n ++ "-" ++ defaultRealm

/-- Two-digit zero padding used by the timestamp formatter. -/
def pad2 (n : Nat) : String := if n < 10 then "0" ++ toString n else toString n

/-- `datetime.fromtimestamp(ts, tz=timezone.utc).strftime("%Y-%m-%dT%H:%M:%SZ")`:
UTC civil date-time from a Unix timestamp (Hinnant's civil-from-days). -/
def isoFromTimestamp (ts : Int) : String :=
  let days : Int := Int.fdiv ts 86400
  let z : Int := days + 719468
  let era : Int := Int.fdiv z 146097
  let doe : Nat := (z - era * 146097).toNat
  let yoe : Nat := (doe - doe / 1460 + doe / 36524 - doe / 146096) / 365
  let y : Int := (yoe : Int) + era * 400
  let doy : Nat := doe - (365 * yoe + yoe / 4 - yoe / 100)
  let mp : Nat := (5 * doy + 2) / 153
  let d : Nat := doy - (153 * mp + 2) / 5 + 1
  let m : Nat := if mp < 10 then mp + 3 else mp - 9
  let year : Int := if m ≤ 2 then y + 1 else y
  let secs : Nat := (ts - days * 86400).toNat
  toString year ++ "-" ++ pad2 m ++ "-" ++ pad2 d ++ "T" ++
    pad2 (secs / 3600) ++ ":" ++ pad2 (secs % 3600 / 60) ++ ":" ++ pad2 (secs % 60) ++ "Z"

/-- One chat-activity aggregate (a value of the raw `data` map).  Absent
keys behave like the zero/empty value through the source's
`d.get(k, dflt) or dflt` access pattern. -/
structure ChatEntry where
  total : Int
  daily : List (String × Int)
  lastMessage : String
  rankName : String
  rankIndex : Int
  lastSeen : String
  lastSeenTS : Int
  deriving Repr, DecidableEq

/-- Comparison used by `_find_chat_entry_for_roster_member` when sorting
candidate chat entries by `lastSeenTS` descending (`reverse=True`). -/
def tsDescLe (a b : String × ChatEntry) : Bool := b.2.lastSeenTS ≤ a.2.lastSeenTS

/-- `_find_chat_entry_for_roster_member`: resolve the chat entry for a
roster member, embedded clause by clause from the source. -/
def findChatEntryForRosterMember (rosterKey canonicalKey : String)
    (rawActivity : List (String × ChatEntry)) : Option ChatEntry :=
  match alookup rawActivity canonicalKey with
  | some e => some e
  | none =>
  match alookup rawActivity rosterKey with
  | some e => some e
  | none =>
    let short := shortName canonicalKey
    match alookup rawActivity short with
    | some e =>
      let candidateKeys := (rawActivity.map Prod.fst).filter (fun k => strStartsWith k (short ++ "-"))
      if candidateKeys = [] then some e else none
    | none =>
      let candidates := rawActivity.filter (fun kv => strStartsWith kv.1 (short ++ "-"))
      match sortStable tsDescLe candidates with
      | [] => none
      | [c] => some c.2
      | c1 :: c2 :: _ =>
        let topTs := c1.2.lastSeenTS
        let secondTs := c2.2.lastSeenTS
        if topTs ≠ 0 ∧ secondTs ≠ 0 ∧ (topTs - secondTs).natAbs < 60 then none
        else some c1.2

/-- One merged member record as built by `_process_and_merge_data`
(the value type of `roster_members` / `union_members`).  The Python
`class` key is embedded as `cls` (`class` is reserved in Lean). -/
structure MemberInfo where
  rank : String
  level : Int
  cls : String
  is_online : Bool
  rankIndex : Int
  rankName : String
  total : Int
  daily : List (String × Int)
  lastSeen : String
  lastSeenTS : Int
  lastMessage : String
  deriving Repr, DecidableEq

/-- The member entry defaults installed by `_process_and_merge_data`
before the raw roster info is merged in. -/
def initRosterEntry : MemberInfo :=
  { rank := "Desconocido"
    level := 80
    cls := "UNKNOWN"
    is_online := false
    rankIndex := 99
    rankName := "—"
    total := 0
    daily := []
    lastSeen := ""
    lastSeenTS := 0
    lastMessage := "" }

/-- One value of the raw roster map.  `is_online` keeps the
absent-versus-explicit-False distinction the source's
`roster_info.get("is_online", entry["is_online"])` is sensitive to;
for the other fields an absent key and a falsy value coincide. -/
structure RawRosterInfo where
  rank : String
  level : Int
  cls : String
  is_online : Option Bool
  deriving Repr, DecidableEq

/-- One lightweight projection entry of `_build_roster_snapshot`
(the value type of the persisted `rosterSnapshot`). -/
structure SnapEntry where
  rank : String
  lvl : Int
  cls : String
  lastSeenTS : Int
  lastMessage : String
  deriving Repr, DecidableEq

/-- `_build_roster_snapshot`: the lightweight projection of a merged
roster map (typed values, so the source's non-dict skip and defaulted
gets are identities). -/
def buildRosterSnapshot (roster : List (String × MemberInfo)) : List (String × SnapEntry) :=
  roster.map (fun p =>
    (p.1,
      { rank := p.2.rank
        lvl := p.2.level
        cls := p.2.cls
        lastSeenTS := p.2.lastSeenTS
        lastMessage := p.2.lastMessage }))

/-- `_compute_roster_delta`: diff the current roster projection against
the prior persisted snapshot.  `added` and `updated` carry the full
member records (the source stores `roster_members.get(name, info)`; the
fallback is unreachable because every projected key is a roster key). -/
def computeRosterDelta (roster : List (String × MemberInfo))
    (prev : List (String × SnapEntry)) :
    List (String × MemberInfo) × List (String × MemberInfo) × List String :=
  let currentSnapshot := buildRosterSnapshot roster
  let added := currentSnapshot.filterMap (fun p =>
    if alookup prev p.1 = none then
      some (p.1, (alookup roster p.1).getD initRosterEntry)
    else none)
  let updated := currentSnapshot.filterMap (fun p =>
    match alookup prev p.1 with
    | none => none
    | some q =>
      if p.2 ≠ q then some (p.1, (alookup roster p.1).getD initRosterEntry)
      else none)
  let removed := prev.filterMap (fun p =>
    if alookup currentSnapshot p.1 = none then some p.1 else none)
  (added, updated, removed)

/-- First element of the count list under the Python sort key
(-count, name): highest count, ties broken by the lexicographically
smallest realm name.  The keys are distinct, so this fold equals
`sorted(items, key=lambda x: (-x[1], x[0]))[0]`. -/
def pickBestRealm : List (String × Nat) → Option String
  | [] => none
  | x :: xs =>
    some (xs.foldl (fun best p =>
      if p.2 > best.2 ∨ (p.2 = best.2 ∧ strLt p.1 best.1) then p else best) x).1

/-- `_infer_default_realm`: a configured realm wins; otherwise count the
post-hyphen realm suffixes over the activity keys and then the roster
keys and pick the most frequent (ties by name); fallback "Unknown". -/
def inferDefaultRealm (configRealm : String)
    (rawRoster : List (String × RawRosterInfo))
    (rawActivity : List (String × ChatEntry)) : String :=
  if configRealm ≠ "" then configRealm
  else
    let bump := fun (counts : List (String × Nat)) (full : String) =>
      if full.data.any (fun c => c == '-') then
        let realm : String :=
          ⟨((full.data.dropWhile (fun c => c ≠ '-')).drop 1).filter (fun c => c ≠ ' ')⟩
        if realm = "" then counts
        else
          match alookup counts realm with
          | some n => upsert realm (n + 1) counts
          | none => upsert realm 1 counts
      else counts
    let counts := (rawRoster.map Prod.fst).foldl bump ((rawActivity.map Prod.fst).foldl bump [])
    match pickBestRealm counts with
    | some best => best
    | none => "Unknown"

/-- The raw-roster merge loop of `_process_and_merge_data`: canonicalize
each raw key, fetch or create the member entry, overlay the raw fields
(falsy raw values keep the existing entry value), and store it back. -/
def buildRosterMembers (rawRoster : List (String × RawRosterInfo)) (realm : String) :
    List (String × MemberInfo) :=
  rawRoster.foldl (fun acc p =>
    let ck := canonicalizePlayerKey p.1 realm
    let entry := (alookup acc ck).getD initRosterEntry
    let info := p.2
    let entry :=
      { entry with
        rank := if info.rank ≠ "" then info.rank else entry.rank
        level := if info.level ≠ 0 then info.level else entry.level
        cls := if info.cls ≠ "" then info.cls else entry.cls
        is_online := info.is_online.getD entry.is_online }
    upsert ck entry acc) []

/-- The per-member chat enrichment of `_process_and_merge_data`: copy
total/daily/lastMessage, adopt a real rankName together with its index,
and adopt a positive lastSeenTS together with its display string. -/
def applyChatData (m : MemberInfo) (chat : ChatEntry) : MemberInfo :=
  let m := { m with total := chat.total, daily := chat.daily, lastMessage := chat.lastMessage }
  let m :=
    if chat.rankName ≠ "" ∧ chat.rankName ≠ "—" then
      { m with
        rankName := chat.rankName
        rankIndex := if chat.rankIndex ≠ 0 then chat.rankIndex else 99 }
    else m
  if chat.lastSeenTS > 0 then
    { m with lastSeenTS := chat.lastSeenTS, lastSeen := chat.lastSeen }
  else m

/-- The enrichment pass over the canonical roster: each member is
resolved against the raw activity map (the source passes the short name
as `roster_key`) and enriched when a chat entry is found. -/
def enrichRosterMembers (members : List (String × MemberInfo))
    (rawActivity : List (String × ChatEntry)) : List (String × MemberInfo) :=
  members.map (fun p =>
    match findChatEntryForRosterMember (shortName p.1) p.1 rawActivity with
    | some chat => (p.1, applyChatData p.2 chat)
    | none => p)

/-- A chat-only (orphan) member entry, built from a chat aggregate that
matched no roster member. -/
def orphanEntry (chat : ChatEntry) : MemberInfo :=
  { rank := if chat.rankName ≠ "" then chat.rankName else "Former"
    level := 0
    cls := "UNKNOWN"
    is_online := false
    rankIndex := if chat.rankIndex ≠ 0 then chat.rankIndex else 99
    rankName := if chat.rankName ≠ "" then chat.rankName else "—"
    total := chat.total
    daily := chat.daily
    lastSeen := chat.lastSeen
    lastSeenTS := chat.lastSeenTS
    lastMessage := chat.lastMessage }

/-- The chat-only collection loop: canonicalize each raw activity key
and keep it as an orphan entry unless the key already names a roster
member. -/
def buildChatOnly (members : List (String × MemberInfo))
    (rawActivity : List (String × ChatEntry)) (realm : String) :
    List (String × MemberInfo) :=
  rawActivity.foldl (fun acc p =>
    let ck := canonicalizePlayerKey p.1 realm
    if (alookup members ck).isSome then acc
    else upsert ck (orphanEntry p.2) acc) []

/-- The brief per-player record carried in a stats snapshot's `online`
map (fields class/level/rank; `class` embedded as `cls`). -/
structure OnlineBrief where
  cls : String
  level : Int
  rank : String
  deriving Repr, DecidableEq

/-- One raw stats snapshot (list form of the raw `stats` table; the
source's dict branch converts the other table shapes to this form). -/
structure RawStatsSnap where
  ts : Int
  iso : String
  onlineCount : Option Int
  online : List (String × OnlineBrief)
  deriving Repr, DecidableEq

/-- One normalized stats snapshot as produced by `_normalize_stats`. -/
structure StatsSnap where
  iso : String
  ts : Int
  onlineCount : Int
  online : List (String × OnlineBrief)
  deriving Repr, DecidableEq

/-- Ascending-by-ts comparison used by `snaps.sort(key=ts_of)`. -/
def statsAscLe (a b : RawStatsSnap) : Bool := a.ts ≤ b.ts

/-- `_normalize_stats` (list branch): sort ascending by ts, fill in the
ISO string, derive the online count, and keep the per-player online map
only on snapshots whose ts equals the newest ts. -/
def normalizeStats (rawStats : List RawStatsSnap) (realm : String) : List StatsSnap :=
  let snaps := sortStable statsAscLe rawStats
  match snaps.getLast? with
  | none => []
  | some lastSnap =>
    snaps.map (fun snap =>
      let iso :=
        if snap.iso ≠ "" then snap.iso
        else if snap.ts ≠ 0 then isoFromTimestamp snap.ts
        else ""
      let onlineCount := snap.onlineCount.getD (snap.online.length : Int)
      let onlinePayload :=
        if snap.ts = lastSnap.ts then
          snap.online.foldl (fun acc q =>
            let lvl : Int := if q.2.level ≠ 0 then q.2.level else 80
            upsert (canonicalizePlayerKey q.1 realm)
              ({ cls := q.2.cls, level := lvl, rank := q.2.rank } : OnlineBrief) acc) []
        else []
      { iso := iso, ts := snap.ts, onlineCount := onlineCount, online := onlinePayload })

/-- The decoded SavedVariables tree, restricted to the keys
`_process_and_merge_data` reads. -/
structure LuaData where
  roster : List (String × RawRosterInfo)
  data : List (String × ChatEntry)
  stats : List RawStatsSnap
  mythic : List (String × String)
  deriving Repr, DecidableEq

/-- The `processed` dictionary returned by `_process_and_merge_data`
(its `meta` sub-dict holds only `defaultRealm`). -/
structure ProcessedData where
  members : List (String × MemberInfo)
  roster_members : List (String × MemberInfo)
  stats : List StatsSnap
  mythic : List (String × String)
  defaultRealm : String
  deriving Repr, DecidableEq

/-- `_process_and_merge_data`: infer the realm, apply the minimum-size
guard, build and enrich the canonical roster, collect orphans, normalize
stats, and return the processed record together with the canonical
roster member count (the function's second return value). -/
def processAndMergeData (configRealm : String) (minRosterSize : Int) (lua : LuaData) :
    Option ProcessedData × Nat :=
  let defaultRealm := inferDefaultRealm configRealm lua.roster lua.data
  if (lua.roster.length : Int) < max 0 minRosterSize then (none, 0)
  else
    let rosterMembers := enrichRosterMembers (buildRosterMembers lua.roster defaultRealm) lua.data
    let chatOnly := buildChatOnly rosterMembers lua.data defaultRealm
    let statsList := normalizeStats lua.stats defaultRealm
    let union := chatOnly.foldl (fun acc p =>
      if (alookup acc p.1).isSome then acc else acc ++ [p]) rosterMembers
    (some
      { members := union
        roster_members := rosterMembers
        stats := statsList
        mythic := lua.mythic
        defaultRealm := defaultRealm }, rosterMembers.length)

/-- Classification of one HTTP response as read by
`_post_to_web_with_retry` (serverError covers every status outside
200/413/401/403/400/422; connectionError covers RequestException). -/
inductive HttpOutcome where
  | ok
  | tooLarge413
  | authError
  | validationError
  | serverError
  | connectionError
  deriving Repr, DecidableEq

/-- How one call of `_post_to_web_with_retry` ends: a normal return
(success, or payload parked in the local durable queue) or a raised
exception (oversize / auth / validation). -/
inductive PostResult where
  | success
  | queuedLocal
  | raisedTooLarge
  | raisedAuth
  | raisedValidation
  deriving Repr, DecidableEq

/-- `_post_to_web_with_retry`, fuel-indexed: `resp a` is the outcome of
attempt number `a`, `attempt` the attempts already made, and the result
is `none` when the loop is still running after `fuel` further attempts.
The sleeps (backoff 1.0s, ×1.6, cap 20.0s) do not affect control flow
and are not modelled; `5` is the source's `max_attempts_before_queue`.
Transient outcomes enqueue-and-return only when `allowQueue` is set and
the attempt count has reached the bound, exactly as in the source. -/
def postToWebWithRetry (resp : Nat → HttpOutcome) (allowQueue : Bool) (attempt : Nat) :
    Nat → Option PostResult
  | 0 => none
  | fuel + 1 =>
    let a := attempt + 1
    match resp a with
    | .ok => some .success
    | .tooLarge413 => some .raisedTooLarge
    | .authError => some .raisedAuth
    | .validationError => some .raisedValidation
    | .serverError =>
      if allowQueue ∧ a ≥ 5 then some .queuedLocal
      else postToWebWithRetry resp allowQueue a fuel
    | .connectionError =>
      if allowQueue ∧ a ≥ 5 then some .queuedLocal
      else postToWebWithRetry resp allowQueue a fuel

/-- How one full `_post_to_web_with_retry` call ends, seen from the
stats upload loop: a normal return (200, or payload parked in the local
queue after retry exhaustion) or a raised exception (413 / auth /
validation). -/
inductive PostReturn where
  | success
  | queued
  | exn
  deriving Repr, DecidableEq

/-- One stats batch payload (the camelCase duplicates of the wire format
carry the same values and are not repeated). -/
structure StatsPayload where
  upload_session_id : String
  is_final_batch : Bool
  batch_index : Nat
  total_batches : Nat
  stats : List StatsSnap
  deriving Repr, DecidableEq

/-- The pre-send trimming loop `for j in range(len(chunk) - 1):
chunk[j]["online"] = {}`: clear the per-player map of every snapshot of
a batch except the batch's last one. -/
def clearAllButLast : List StatsSnap → List StatsSnap
  | [] => []
  | [s] => [s]
  | s :: t :: rest => { s with online := [] } :: clearAllButLast (t :: rest)

/-- The batch loop of `_upload_stats_incremental_to_web`: one POST per
chunk (the oracle gives each call's result), stopping at the first
raised exception.  Returns the posted payloads and whether the loop ran
to completion. -/
def statsUploadLoop (sid : String) (oracle : Nat → PostReturn) (totalBatches : Nat) :
    List (List StatsSnap) → Nat → List StatsPayload × Bool
  | [], _ => ([], true)
  | chunk :: rest, bi =>
    let payload : StatsPayload :=
      { upload_session_id := sid
        is_final_batch := false
        batch_index := bi
        total_batches := totalBatches
        stats := clearAllButLast chunk }
    match oracle bi with
    | .exn => ([payload], false)
    | _ =>
      let r := statsUploadLoop sid oracle totalBatches rest (bi + 1)
      (payload :: r.1, r.2)

/-- Ascending-by-ts comparison used by `new_snaps.sort(...)`. -/
def snapAscLe (a b : StatsSnap) : Bool := a.ts ≤ b.ts

/-- `_upload_stats_incremental_to_web`: filter the snapshots newer than
the watermark, sort ascending, batch and post them, and — only when no
batch raised — advance the watermark to the last (newest) posted
timestamp.  The source wraps the body in try/except, so a raised batch
leaves the watermark argument unchanged.  Returns the posted payloads
and the resulting watermark. -/
def uploadStatsIncrementalToWeb (sid : String) (statsBatchSize : Nat)
    (oracle : Nat → PostReturn) (statsList : List StatsSnap)
    (lastUploadedStatsTs : Int) : List StatsPayload × Int :=
  match statsList with
  | [] => ([], lastUploadedStatsTs)
  | _ :: _ =>
    let newSnaps0 := statsList.filter (fun s => lastUploadedStatsTs < s.ts)
    if newSnaps0 = [] then ([], lastUploadedStatsTs)
    else
      let newSnaps := sortStable snapAscLe newSnaps0
      let batchSize := max 10 statsBatchSize
      let totalBatches := ceilDiv newSnaps.length batchSize
      let r := statsUploadLoop sid oracle totalBatches (chunksOf batchSize newSnaps) 1
      if r.2 then
        let lastTs := ((newSnaps.getLast?).map (fun s => s.ts)).getD 0
        (r.1, if lastTs ≠ 0 then lastTs else lastUploadedStatsTs)
      else (r.1, lastUploadedStatsTs)

/-- The `roster_summary` sub-dictionary of a roster batch payload. -/
structure RosterSummary where
  mode : String
  added : Nat
  updated : Nat
  removed : Nat
  total_members : Nat
  reason : String
  deriving Repr, DecidableEq

/-- One `master_roster` value (fields rank/lvl/class; `class` embedded
as `cls`). -/
structure RosterBrief where
  rank : String
  lvl : Int
  cls : String
  deriving Repr, DecidableEq

/-- One chat-activity value of the payload's `data` map. -/
structure ChatBrief where
  total : Int
  rankName : String
  lastMessage : String
  lastSeenTS : Int
  lastSeen : String
  deriving Repr, DecidableEq

/-- One roster/chat upload payload.  `session_phase` and `has_changes`
are `Option` because the no-change heartbeat dictionary carries neither
key; the camelCase duplicates of the wire format carry the same values
and are not repeated. -/
structure RosterPayload where
  upload_session_id : String
  is_final_batch : Bool
  batch_index : Nat
  total_batches : Nat
  removed_members : List String
  session_phase : Option String
  roster_mode : String
  roster_summary : RosterSummary
  master_roster : List (String × RosterBrief)
  data : List (String × ChatBrief)
  has_changes : Option Bool
  deriving Repr, DecidableEq

/-- The closure context of `build_payload` inside
`_upload_chunked_to_web`: the (possibly delta-reduced) member map being
transferred plus the delta metadata. -/
structure UploadCtx where
  sid : String
  rosterMembers : List (String × MemberInfo)
  removed : List String
  mode : String
  reason : String
  addedCount : Nat
  updatedCount : Nat
  removedCount : Nat
  processedTotal : Nat
  deriving Repr, DecidableEq

/-- `build_payload`: assemble one roster batch payload from the batch
keys and position.  Member lookups fall back to the empty dict in the
source, which yields the defaults of the `none` branches here. -/
def buildPayload (ctx : UploadCtx) (batchKeys : List String)
    (batchIndex totalBatches : Nat) (isFinal : Bool) : RosterPayload :=
  let masterRoster := batchKeys.map (fun n =>
    match alookup ctx.rosterMembers n with
    | some info =>
      let lvl : Int := if info.level ≠ 0 then info.level else 80
      (n, ({ rank := info.rank, lvl := lvl, cls := info.cls } : RosterBrief))
    | none => (n, ({ rank := "Member", lvl := 80, cls := "UNKNOWN" } : RosterBrief)))
  let chatData := batchKeys.filterMap (fun n =>
    match alookup ctx.rosterMembers n with
    | some info =>
      let total := info.total
      let ts := info.lastSeenTS
      let lastMsg := info.lastMessage
      let rankName :=
        if info.rankName ≠ "" ∧ info.rankName ≠ "—" then info.rankName else info.rank
      if total > 0 ∨ ts > 0 ∨ lastMsg ≠ "" then
        some (n,
          ({ total := total
             rankName := if rankName ≠ "" then rankName else "Member"
             lastMessage := lastMsg
             lastSeenTS := ts
             lastSeen := if ts > 0 then isoFromTimestamp ts else "" } : ChatBrief))
      else none
    | none => none)
  let sessionPhase :=
    if totalBatches = 1 then "final"
    else if batchIndex = 1 then "start"
    else if isFinal then "final"
    else "chunk"
  let modeHasChanges := ctx.mode = "delta" ∨ ctx.mode = "full"
  { upload_session_id := ctx.sid
    is_final_batch := isFinal
    batch_index := batchIndex
    total_batches := totalBatches
    removed_members := if isFinal ∧ modeHasChanges then ctx.removed else []
    session_phase := some sessionPhase
    roster_mode := ctx.mode
    roster_summary :=
      { mode := ctx.mode
        added := if modeHasChanges then ctx.addedCount else 0
        updated := if modeHasChanges then ctx.updatedCount else 0
        removed := if modeHasChanges then ctx.removedCount else 0
        total_members := ctx.processedTotal
        reason := ctx.reason }
    master_roster := masterRoster
    data := chatData
    has_changes := some modeHasChanges }

deriving instance DecidableEq for Except

/-- How one roster batch POST ends, seen from the chunked upload loop:
`accepted` is a normal return (200, or payload parked in the local
queue), `oversize` a raised `_TooLarge413`, `fatalError` a raised
auth/validation RuntimeError. -/
inductive ChunkOutcome where
  | accepted
  | oversize
  | fatalError
  deriving Repr, DecidableEq

/-- An exception propagating out of `_upload_chunked_to_web`. -/
inductive UploadError where
  | tooLarge413
  | fatal
  deriving Repr, DecidableEq

/-- The while loop of `_upload_chunked_to_web`: post the batch starting
at `idx`; on acceptance advance by the current batch size; on an
oversize rejection halve the batch size (floor 10, re-raising at the
floor), recompute the batch total and retry the same index.  Returns
the trace of posted payloads with their outcomes.  The `hbs` bound is
the source invariant `batch_size = max(10, ...)`, needed here for
termination. -/
def uploadLoop (ctx : UploadCtx) (allKeys : List String) (oracle : Nat → ChunkOutcome)
    (idx batchIndex batchSize totalBatches attempt : Nat) (hbs : 10 ≤ batchSize) :
    Except UploadError (List (RosterPayload × ChunkOutcome)) :=
  if h : idx < allKeys.length then
    let batchKeys := (allKeys.drop idx).take batchSize
    let isFinal := decide (allKeys.length ≤ idx + batchSize)
    let payload := buildPayload ctx batchKeys batchIndex totalBatches isFinal
    match oracle attempt with
    | .accepted =>
      match uploadLoop ctx allKeys oracle (idx + batchSize) (batchIndex + 1) batchSize
          totalBatches (attempt + 1) hbs with
      | .ok rest => .ok ((payload, .accepted) :: rest)
      | .error e => .error e
    | .oversize =>
      if hsmall : batchSize ≤ 10 then .error .tooLarge413
      else
        let newBs := max 10 (batchSize / 2)
        match uploadLoop ctx allKeys oracle idx batchIndex newBs
            (max 1 (ceilDiv allKeys.length newBs)) (attempt + 1) (Nat.le_max_left _ _) with
        | .ok rest => .ok ((payload, .oversize) :: rest)
        | .error e => .error e
    | .fatalError => .error .fatal
  else .ok []
termination_by (allKeys.length - idx, batchSize)
decreasing_by
  · apply Prod.Lex.left
    omega
  · apply Prod.Lex.right
    omega

/-- The durable engine state the uploaders mutate (`AppState` fields
`last_uploaded_stats_ts` and `roster_snapshot`). -/
structure BridgeState where
  last_uploaded_stats_ts : Int
  roster_snapshot : List (String × SnapEntry)
  deriving Repr, DecidableEq

/-- The no-change heartbeat dictionary (`summary_payload` in the
source): a single final batch with empty slices and, in particular, no
`session_phase` and no `has_changes` key. -/
def heartbeatPayload (sid : String) (totalMembers : Nat) : RosterPayload :=
  { upload_session_id := sid
    is_final_batch := true
    batch_index := 1
    total_batches := 1
    removed_members := []
    session_phase := none
    roster_mode := "no_change"
    roster_summary :=
      { mode := "no_change"
        added := 0
        updated := 0
        removed := 0
        total_members := totalMembers
        reason := "no_change" }
    master_roster := []
    data := []
    has_changes := none }

/-- `_upload_chunked_to_web`: compute the delta, choose full / delta /
no-change mode, post the heartbeat or run the batch loop, and on normal
completion overwrite the persisted roster snapshot with the projection
of the processed data's full member map.  Returns the posted payload
trace and the new state, or the exception that propagated. -/
def uploadChunkedToWeb (batchSizeCfg : Nat) (st : BridgeState) (processed : ProcessedData)
    (sid : String) (forceFull : Bool) (forceReason : String) (oracle : Nat → ChunkOutcome) :
    Except UploadError (List (RosterPayload × ChunkOutcome) × BridgeState) :=
  let rosterMembers0 :=
    if processed.roster_members ≠ [] then processed.roster_members else processed.members
  if rosterMembers0 = [] then .ok ([], st)
  else
    let delta := computeRosterDelta rosterMembers0 st.roster_snapshot
    let added := delta.1
    let updated := delta.2.1
    let removed := delta.2.2
    let processedTotal := rosterMembers0.length
    let commit : BridgeState := { st with roster_snapshot := buildRosterSnapshot rosterMembers0 }
    if forceFull then
      let ctx : UploadCtx :=
        { sid := sid
          rosterMembers := rosterMembers0
          removed := removed
          mode := "full"
          reason := if forceReason ≠ "" then forceReason else "full"
          addedCount := added.length
          updatedCount := updated.length
          removedCount := removed.length
          processedTotal := processedTotal }
      let allKeys := rosterMembers0.map Prod.fst
      let bs0 := max 10 batchSizeCfg
      match uploadLoop ctx allKeys oracle 0 1 bs0
          (max 1 (ceilDiv allKeys.length bs0)) 1 (Nat.le_max_left _ _) with
      | .ok trace => .ok (trace, commit)
      | .error e => .error e
    else if added ≠ [] ∨ updated ≠ [] ∨ removed ≠ [] then
      let transferred := added ++ updated
      let ctx : UploadCtx :=
        { sid := sid
          rosterMembers := transferred
          removed := removed
          mode := "delta"
          reason := "delta"
          addedCount := added.length
          updatedCount := updated.length
          removedCount := removed.length
          processedTotal := processedTotal }
      let allKeys := transferred.map Prod.fst
      let bs0 := max 10 batchSizeCfg
      match uploadLoop ctx allKeys oracle 0 1 bs0
          (max 1 (ceilDiv allKeys.length bs0)) 1 (Nat.le_max_left _ _) with
      | .ok trace => .ok (trace, commit)
      | .error e => .error e
    else
      let hb := heartbeatPayload sid processedTotal
      match oracle 1 with
      | .accepted => .ok ([(hb, .accepted)], commit)
      | .oversize => .error .tooLarge413
      | .fatalError => .error .fatal

/-- The roster phase of `process_file`: run the chunked upload and keep
the old state when an exception propagates (the source catches it at
line 893 without touching `state.roster_snapshot`). -/
def runCycleRoster (batchSizeCfg : Nat) (st : BridgeState) (processed : ProcessedData)
    (sid : String) (forceFull : Bool) (forceReason : String) (oracle : Nat → ChunkOutcome) :
    BridgeState :=
  match uploadChunkedToWeb batchSizeCfg st processed sid forceFull forceReason oracle with
  | .ok r => r.2
  | .error _ => st

/-- Modelled from the spec wording of the merge resolution order (claim
C6, steps 1-5 as written): (1) exact canonical match; (2) exact match on
the original key; (3) unique match by short name; (4) unique match among
short-dash candidates; (5) with several candidates, the most recent by
lastSeenTS wins unless the two newest differ by less than 60 seconds, in
which case resolution is ambiguous and enrichment is skipped.  Written
to be compared with `findChatEntryForRosterMember`. -/
def findChatEntrySpecClaim (rosterKey canonicalKey : String)
    (rawActivity : List (String × ChatEntry)) : Option ChatEntry :=
  match alookup rawActivity canonicalKey with
  | some e => some e
  | none =>
  match alookup rawActivity rosterKey with
  | some e => some e
  | none =>
    let short := shortName canonicalKey
    let candidates := rawActivity.filter (fun kv => strStartsWith kv.1 (short ++ "-"))
    let fromCandidates :=
      match sortStable tsDescLe candidates with
      | [] => none
      | [c] => some c.2
      | c1 :: c2 :: _ =>
        if (c1.2.lastSeenTS - c2.2.lastSeenTS).natAbs < 60 then none
        else some c1.2
    match alookup rawActivity short with
    | some e => if candidates = [] then some e else fromCandidates
    | none => fromCandidates

/-- The amended resolution order (claim C6 corrected to the source):
step 3 succeeds only when no short-dash candidate exists, and a short
key coexisting with candidates is itself ambiguous (enrichment skipped);
in step 5 the under-60-second ambiguity skip applies only when both of
the two newest candidates carry a nonzero lastSeenTS. -/
def findChatEntrySpecAmended (rosterKey canonicalKey : String)
    (rawActivity : List (String × ChatEntry)) : Option ChatEntry :=
  match alookup rawActivity canonicalKey with
  | some e => some e
  | none =>
  match alookup rawActivity rosterKey with
  | some e => some e
  | none =>
    let short := shortName canonicalKey
    let candidates := rawActivity.filter (fun kv => strStartsWith kv.1 (short ++ "-"))
    match alookup rawActivity short with
    | some e => if candidates = [] then some e else none
    | none =>
      match sortStable tsDescLe candidates with
      | [] => none
      | [c] => some c.2
      | c1 :: c2 :: _ =>
        if c1.2.lastSeenTS ≠ 0 ∧ c2.2.lastSeenTS ≠ 0 ∧
            (c1.2.lastSeenTS - c2.2.lastSeenTS).natAbs < 60 then none
        else some c1.2

/-! Helper lemmas about the association-list and sorting primitives. -/

theorem alookup_eq_none {α : Type} (l : List (String × α)) (k : String) :
    alookup l k = none ↔ k ∉ l.map Prod.fst := by
  induction l with
  | nil => simp [alookup]
  | cons p rest ih =>
    cases p with
    | mk k' v =>
      by_cases h : k' = k
      · subst h
        simp [alookup]
      · simp only [alookup, if_neg h, ih, List.map_cons, List.mem_cons]
        constructor
        · intro hk hor
          rcases hor with he | hm
          · exact h he.symm
          · exact hk hm
        · intro hk hm
          exact hk (Or.inr hm)

theorem alookup_isSome {α : Type} (l : List (String × α)) (k : String) :
    (alookup l k).isSome ↔ k ∈ l.map Prod.fst := by
  induction l with
  | nil => simp [alookup]
  | cons p rest ih =>
    cases p with
    | mk k' v =>
      by_cases h : k' = k
      · subst h
        simp [alookup]
      · simp only [alookup, if_neg h, ih, List.map_cons, List.mem_cons]
        constructor
        · intro hm
          exact Or.inr hm
        · intro hm
          rcases hm with he | hm
          · exact absurd he.symm h
          · exact hm

theorem alookup_mem {α : Type} {l : List (String × α)} {k : String} {v : α}
    (h : alookup l k = some v) : (k, v) ∈ l := by
  induction l with
  | nil => simp [alookup] at h
  | cons p rest ih =>
    cases p with
    | mk k' w =>
      by_cases hk : k' = k
      · subst hk
        simp [alookup] at h
        simp [h]
      · simp [alookup, hk] at h
        exact List.mem_cons_of_mem _ (ih h)

theorem mem_alookup_of_nodup {α : Type} {l : List (String × α)} {k : String} {v : α}
    (hn : (l.map Prod.fst).Nodup) (h : (k, v) ∈ l) : alookup l k = some v := by
  induction l with
  | nil => simp at h
  | cons p rest ih =>
    cases p with
    | mk k' w =>
      simp only [List.map_cons, List.nodup_cons] at hn
      rcases List.mem_cons.1 h with h1 | h1
      · have hk : k' = k := (congrArg Prod.fst h1).symm
        have hw : w = v := (congrArg Prod.snd h1).symm
        subst hk
        subst hw
        simp [alookup]
      · have hkne : k' ≠ k := by
          intro he
          subst he
          exact hn.1 (by simpa using List.mem_map_of_mem Prod.fst h1)
        simp [alookup, hkne]
        exact ih hn.2 h1

theorem alookup_val_unique {α : Type} {l : List (String × α)} {k : String} {a b : α}
    (hn : (l.map Prod.fst).Nodup) (ha : (k, a) ∈ l) (hb : (k, b) ∈ l) : a = b := by
  have h1 := mem_alookup_of_nodup hn ha
  have h2 := mem_alookup_of_nodup hn hb
  rw [h1] at h2
  exact Option.some.inj h2

theorem mem_insertSorted {α : Type} (le : α → α → Bool) (a x : α) (l : List α) :
    x ∈ insertSorted le a l ↔ x = a ∨ x ∈ l := by
  induction l with
  | nil => simp [insertSorted]
  | cons y ys ih =>
    by_cases h : le a y
    · simp [insertSorted, h]
    · simp [insertSorted, h, ih]
      tauto

theorem mem_sortStable {α : Type} (le : α → α → Bool) (x : α) (l : List α) :
    x ∈ sortStable le l ↔ x ∈ l := by
  induction l with
  | nil => simp [sortStable]
  | cons y ys ih =>
    simp [sortStable, mem_insertSorted, ih]

theorem length_insertSorted {α : Type} (le : α → α → Bool) (a : α) (l : List α) :
    (insertSorted le a l).length = l.length + 1 := by
  induction l with
  | nil => simp [insertSorted]
  | cons y ys ih =>
    by_cases h : le a y
    · simp [insertSorted, h]
    · simp [insertSorted, h, ih]

theorem length_sortStable {α : Type} (le : α → α → Bool) (l : List α) :
    (sortStable le l).length = l.length := by
  induction l with
  | nil => rfl
  | cons y ys ih => simp [sortStable, length_insertSorted, ih]

theorem pairwise_insertSorted {α : Type} {le : α → α → Bool} {R : α → α → Prop}
    (hle : ∀ a b, le a b = true → R a b) (hnle : ∀ a b, le a b = false → R b a)
    (htrans : ∀ a b c, R a b → R b c → R a c)
    {l : List α} (a : α) (hl : l.Pairwise R) : (insertSorted le a l).Pairwise R := by
  induction l with
  | nil => simp [insertSorted]
  | cons y ys ih =>
    rcases List.pairwise_cons.1 hl with ⟨hy, hys⟩
    by_cases h : le a y
    · rw [insertSorted]
      rw [if_pos h]
      refine List.pairwise_cons.2 ⟨?_, hl⟩
      intro z hz
      rcases List.mem_cons.1 hz with rfl | hz2
      · exact hle _ _ h
      · exact htrans _ _ _ (hle _ _ h) (hy _ hz2)
    · rw [insertSorted]
      rw [if_neg h]
      refine List.pairwise_cons.2 ⟨?_, ih hys⟩
      intro z hz
      rcases (mem_insertSorted le a z ys).1 hz with rfl | hz2
      · exact hnle _ _ (by simpa using h)
      · exact hy _ hz2

theorem pairwise_sortStable {α : Type} {le : α → α → Bool} {R : α → α → Prop}
    (hle : ∀ a b, le a b = true → R a b) (hnle : ∀ a b, le a b = false → R b a)
    (htrans : ∀ a b c, R a b → R b c → R a c)
    (l : List α) : (sortStable le l).Pairwise R := by
  induction l with
  | nil => simp [sortStable]
  | cons y ys ih => exact pairwise_insertSorted hle hnle htrans y ih

theorem pairwise_rel_getLast {α : Type} {R : α → α → Prop} :
    ∀ (l : List α), l.Pairwise R → ∀ (hne : l ≠ []),
      ∀ x ∈ l, x = l.getLast hne ∨ R x (l.getLast hne) := by
  intro l
  induction l with
  | nil =>
    intro _ hne
    exact absurd rfl hne
  | cons y ys ih =>
    intro hp hne x hx
    rcases List.pairwise_cons.1 hp with ⟨hy, hys⟩
    cases ys with
    | nil =>
      left
      simp at hx
      simp [hx]
    | cons z zs =>
      rw [List.getLast_cons (by simp)]
      rcases List.mem_cons.1 hx with rfl | hx2
      · right
        exact hy _ (List.getLast_mem _)
      · exact ih hys (by simp) x hx2

/-! Characterizations of the delta classification (`_compute_roster_delta`). -/

theorem buildRosterSnapshot_keys (roster : List (String × MemberInfo)) :
    (buildRosterSnapshot roster).map Prod.fst = roster.map Prod.fst := by
  simp [buildRosterSnapshot, List.map_map]

theorem mem_keys_added_iff (roster : List (String × MemberInfo))
    (prev : List (String × SnapEntry)) (k : String) :
    k ∈ (computeRosterDelta roster prev).1.map Prod.fst ↔
      (k ∈ roster.map Prod.fst ∧ alookup prev k = none) := by
  simp only [computeRosterDelta]
  constructor
  · intro hk
    rcases List.mem_map.1 hk with ⟨q, hq, hq1⟩
    rcases List.mem_filterMap.1 hq with ⟨p, hp, hfp⟩
    by_cases hpp : alookup prev p.1 = none
    · rw [if_pos hpp] at hfp
      have hpk : p.1 = k := (congrArg Prod.fst (Option.some.inj hfp)).trans hq1
      constructor
      · rw [← buildRosterSnapshot_keys roster]
        rw [← hpk]
        exact List.mem_map_of_mem Prod.fst hp
      · rw [← hpk]
        exact hpp
    · rw [if_neg hpp] at hfp
      exact Option.noConfusion hfp
  · rintro ⟨hk1, hk2⟩
    have hkcur : k ∈ (buildRosterSnapshot roster).map Prod.fst := by
      rw [buildRosterSnapshot_keys]
      exact hk1
    rcases Option.isSome_iff_exists.1 ((alookup_isSome (buildRosterSnapshot roster) k).2 hkcur)
      with ⟨v, hv⟩
    apply List.mem_map.2
    refine ⟨(k, (alookup roster k).getD initRosterEntry), ?_, rfl⟩
    apply List.mem_filterMap.2
    refine ⟨(k, v), alookup_mem hv, ?_⟩
    rw [if_pos hk2]

theorem mem_keys_updated_iff (roster : List (String × MemberInfo))
    (prev : List (String × SnapEntry)) (k : String)
    (hr : (roster.map Prod.fst).Nodup) :
    k ∈ (computeRosterDelta roster prev).2.1.map Prod.fst ↔
      (∃ v p, alookup (buildRosterSnapshot roster) k = some v ∧
        alookup prev k = some p ∧ v ≠ p) := by
  have hnodup : ((buildRosterSnapshot roster).map Prod.fst).Nodup := by
    rw [buildRosterSnapshot_keys]
    exact hr
  simp only [computeRosterDelta]
  constructor
  · intro hk
    rcases List.mem_map.1 hk with ⟨q, hq, hq1⟩
    rcases List.mem_filterMap.1 hq with ⟨p, hp, hfp⟩
    cases hpp : alookup prev p.1 with
    | none =>
      simp only [hpp] at hfp
      exact Option.noConfusion hfp
    | some q0 =>
      simp only [hpp] at hfp
      by_cases hne : p.2 ≠ q0
      · rw [if_pos hne] at hfp
        have hpk : p.1 = k := (congrArg Prod.fst (Option.some.inj hfp)).trans hq1
        subst hpk
        refine ⟨p.2, q0, ?_, hpp, hne⟩
        exact mem_alookup_of_nodup hnodup hp
      · rw [if_neg hne] at hfp
        exact Option.noConfusion hfp
  · rintro ⟨v, q0, hv, hpp, hne⟩
    apply List.mem_map.2
    refine ⟨(k, (alookup roster k).getD initRosterEntry), ?_, rfl⟩
    apply List.mem_filterMap.2
    refine ⟨(k, v), alookup_mem hv, ?_⟩
    simp only [hpp]
    rw [if_pos hne]

theorem mem_removed_iff (roster : List (String × MemberInfo))
    (prev : List (String × SnapEntry)) (k : String) :
    k ∈ (computeRosterDelta roster prev).2.2 ↔
      (k ∈ prev.map Prod.fst ∧ alookup (buildRosterSnapshot roster) k = none) := by
  simp only [computeRosterDelta]
  constructor
  · intro hk
    rcases List.mem_filterMap.1 hk with ⟨p, hp, hfp⟩
    by_cases hc : alookup (buildRosterSnapshot roster) p.1 = none
    · rw [if_pos hc] at hfp
      have hpk : p.1 = k := Option.some.inj hfp
      rw [← hpk]
      exact ⟨List.mem_map_of_mem Prod.fst hp, hc⟩
    · rw [if_neg hc] at hfp
      exact Option.noConfusion hfp
  · rintro ⟨hk1, hk2⟩
    rcases List.mem_map.1 hk1 with ⟨p, hp, hpk⟩
    apply List.mem_filterMap.2
    refine ⟨p, hp, ?_⟩
    rw [hpk]
    rw [if_pos hk2]

/-- C5: for every current roster and prior snapshot (with the unique
keys Python dicts guarantee), the delta classification is an exhaustive
and disjoint partition: every current-cycle canonical key is in exactly
one of added (absent from the prior snapshot), updated (present with a
differing projection) or unchanged (present and identical), and every
removed key was present in the prior snapshot and is absent from the
current roster. -/
theorem computeRosterDelta_partition (roster : List (String × MemberInfo))
    (prev : List (String × SnapEntry)) (hr : (roster.map Prod.fst).Nodup) :
    (∀ k v, alookup (buildRosterSnapshot roster) k = some v →
      ((alookup prev k = none ∧
          k ∈ (computeRosterDelta roster prev).1.map Prod.fst ∧
          k ∉ (computeRosterDelta roster prev).2.1.map Prod.fst) ∨
        (∃ p, alookup prev k = some p ∧ v ≠ p ∧
          k ∉ (computeRosterDelta roster prev).1.map Prod.fst ∧
          k ∈ (computeRosterDelta roster prev).2.1.map Prod.fst) ∨
        (∃ p, alookup prev k = some p ∧ v = p ∧
          k ∉ (computeRosterDelta roster prev).1.map Prod.fst ∧
          k ∉ (computeRosterDelta roster prev).2.1.map Prod.fst))) ∧
    (∀ k ∈ (computeRosterDelta roster prev).2.2,
      k ∈ prev.map Prod.fst ∧ alookup (buildRosterSnapshot roster) k = none) := by
  constructor
  · intro k v hv
    have hkkeys : k ∈ roster.map Prod.fst := by
      rw [← buildRosterSnapshot_keys roster]
      exact List.mem_map_of_mem Prod.fst (alookup_mem hv)
    cases hprev : alookup prev k with
    | none =>
      left
      refine ⟨rfl, (mem_keys_added_iff roster prev k).2 ⟨hkkeys, hprev⟩, ?_⟩
      intro hku
      rcases (mem_keys_updated_iff roster prev k hr).1 hku with ⟨v2, p2, _, hp2, _⟩
      rw [hprev] at hp2
      exact Option.noConfusion hp2
    | some p0 =>
      have hnotadded : k ∉ (computeRosterDelta roster prev).1.map Prod.fst := by
        intro hka
        rcases (mem_keys_added_iff roster prev k).1 hka with ⟨_, hnone⟩
        rw [hprev] at hnone
        exact Option.noConfusion hnone
      by_cases hvp : v = p0
      · right
        right
        refine ⟨p0, rfl, hvp, hnotadded, ?_⟩
        intro hku
        rcases (mem_keys_updated_iff roster prev k hr).1 hku with ⟨v2, p2, hv2, hp2, hne2⟩
        rw [hv] at hv2
        rw [hprev] at hp2
        exact hne2 (by
          rw [← Option.some.inj hv2, ← Option.some.inj hp2]
          exact hvp)
      · right
        left
        exact ⟨p0, rfl, hvp, hnotadded,
          (mem_keys_updated_iff roster prev k hr).2 ⟨v, p0, hv, hprev, hvp⟩⟩
  · intro k hk
    exact (mem_removed_iff roster prev k).1 hk

/-- Sample merged member used by concrete instantiations below. -/
def sampleMember (lvl ts : Int) : MemberInfo :=
  { initRosterEntry with level := lvl, lastSeenTS := ts }

/-- Concrete two-member roster for instantiating the delta partition. -/
def c5Roster : List (String × MemberInfo) :=
  [("A-R", sampleMember 80 100), ("B-R", sampleMember 70 50)]

/-- Concrete prior snapshot containing only the first member. -/
def c5Prev : List (String × SnapEntry) :=
  buildRosterSnapshot [("A-R", sampleMember 80 100)]

/-- Witness for C5: the partition theorem instantiated at a concrete
roster and snapshot, classifying the new key B-R. -/
theorem computeRosterDelta_partition_witness :
    (alookup c5Prev "B-R" = none ∧
      "B-R" ∈ (computeRosterDelta c5Roster c5Prev).1.map Prod.fst ∧
      "B-R" ∉ (computeRosterDelta c5Roster c5Prev).2.1.map Prod.fst) ∨
    (∃ p, alookup c5Prev "B-R" = some p ∧
      ({ rank := "Desconocido", lvl := 70, cls := "UNKNOWN", lastSeenTS := 50,
         lastMessage := "" } : SnapEntry) ≠ p ∧
      "B-R" ∉ (computeRosterDelta c5Roster c5Prev).1.map Prod.fst ∧
      "B-R" ∈ (computeRosterDelta c5Roster c5Prev).2.1.map Prod.fst) ∨
    (∃ p, alookup c5Prev "B-R" = some p ∧
      ({ rank := "Desconocido", lvl := 70, cls := "UNKNOWN", lastSeenTS := 50,
         lastMessage := "" } : SnapEntry) = p ∧
      "B-R" ∉ (computeRosterDelta c5Roster c5Prev).1.map Prod.fst ∧
      "B-R" ∉ (computeRosterDelta c5Roster c5Prev).2.1.map Prod.fst) :=
  (computeRosterDelta_partition c5Roster c5Prev (by decide)).1 "B-R"
    { rank := "Desconocido", lvl := 70, cls := "UNKNOWN", lastSeenTS := 50, lastMessage := "" }
    (by decide)

/-! Claim C6: the merge resolution order. -/

/-- Chat entry with lastSeenTS 30, used by the C6 counterexample. -/
def c6EntryA : ChatEntry :=
  { total := 1, daily := [], lastMessage := "", rankName := "", rankIndex := 0,
    lastSeen := "", lastSeenTS := 30 }

/-- Chat entry with lastSeenTS 0, used by the C6 counterexample. -/
def c6EntryB : ChatEntry :=
  { total := 2, daily := [], lastMessage := "", rankName := "", rankIndex := 0,
    lastSeen := "", lastSeenTS := 0 }

/-- Activity map with two short-dash candidates whose two newest
timestamps (30 and 0) differ by less than 60 seconds. -/
def c6Activity : List (String × ChatEntry) :=
  [("Bob-RealmA", c6EntryA), ("Bob-RealmB", c6EntryB)]

/-- Counterexample for C6: with candidates at lastSeenTS 30 and 0 the
two newest timestamps differ by 30 < 60 seconds, so the claim's step 5
says resolution is ambiguous and enrichment is skipped; the source skips
the ambiguity check when either timestamp is zero and returns the newest
candidate, so the code disagrees with the claim at this input. -/
theorem findChatEntry_claim_counterexample :
    findChatEntryForRosterMember "Bob" "Bob-Main" c6Activity = some c6EntryA ∧
      findChatEntrySpecClaim "Bob" "Bob-Main" c6Activity = none := by
  constructor
  · decide
  · decide

/-- C6 (amended): the source's resolution order equals the amended
five-step specification — steps 1 and 2 as claimed; step 3 succeeds only
with no short-dash candidate (a short key coexisting with candidates is
ambiguous); step 4 as claimed; in step 5 the under-60-second ambiguity
skip applies only when both of the two newest candidates carry a nonzero
lastSeenTS. -/
theorem findChatEntry_follows_amended_spec (rk ck : String)
    (act : List (String × ChatEntry)) :
    findChatEntryForRosterMember rk ck act = findChatEntrySpecAmended rk ck act := by
  cases h1 : alookup act ck with
  | some e => simp only [findChatEntryForRosterMember, findChatEntrySpecAmended, h1]
  | none =>
    cases h2 : alookup act rk with
    | some e => simp only [findChatEntryForRosterMember, findChatEntrySpecAmended, h1, h2]
    | none =>
      cases h3 : alookup act (shortName ck) with
      | none =>
        simp only [findChatEntryForRosterMember, findChatEntrySpecAmended, h1, h2, h3]
      | some e =>
        simp only [findChatEntryForRosterMember, findChatEntrySpecAmended, h1, h2, h3]
        have hiff :
            ((act.map Prod.fst).filter (fun k => strStartsWith k (shortName ck ++ "-")) = []) ↔
              (act.filter (fun kv => strStartsWith kv.1 (shortName ck ++ "-")) = []) := by
          rw [List.filter_map]
          exact List.map_eq_nil_iff
        by_cases hc : act.filter (fun kv => strStartsWith kv.1 (shortName ck ++ "-")) = []
        · rw [if_pos (hiff.2 hc)]
          rw [if_pos hc]
        · rw [if_neg (fun h => hc (hiff.1 h))]
          rw [if_neg hc]

/-! Claim C3: the attempt bound of the resilient transport. -/

/-- C3 (code bug): with queuing enabled every call of
`_post_to_web_with_retry` ends within the bounded attempt count of 5,
but with queuing disabled — exactly the mode used for queue replay — the
enqueue-and-return exit is unreachable, so a request whose every attempt
fails transiently (HTTP 5xx) retries forever: no fuel bound makes the
loop terminate, contradicting the claimed bound for replay calls. -/
theorem postToWebWithRetry_attempt_bound :
    (∀ fuel, postToWebWithRetry (fun _ => HttpOutcome.serverError) false 0 fuel = none) ∧
    (∀ resp : Nat → HttpOutcome, (postToWebWithRetry resp true 0 5).isSome = true) := by
  constructor
  · have hgen : ∀ fuel attempt,
        postToWebWithRetry (fun _ => HttpOutcome.serverError) false attempt fuel = none := by
      intro fuel
      induction fuel with
      | zero =>
        intro attempt
        rfl
      | succ n ih =>
        intro attempt
        simp only [postToWebWithRetry]
        simp [ih]
    intro fuel
    exact hgen fuel 0
  · have hgen : ∀ fuel attempt (resp : Nat → HttpOutcome), 5 ≤ attempt + fuel → 1 ≤ fuel →
        (postToWebWithRetry resp true attempt fuel).isSome = true := by
      intro fuel
      induction fuel with
      | zero =>
        intro attempt resp h h1
        exact absurd h1 (by omega)
      | succ n ih =>
        intro attempt resp h h1
        simp only [postToWebWithRetry]
        cases hr : resp (attempt + 1) with
        | ok => simp [hr]
        | tooLarge413 => simp [hr]
        | authError => simp [hr]
        | validationError => simp [hr]
        | serverError =>
          simp only [hr]
          by_cases hq : 5 ≤ attempt + 1
          · rw [if_pos ⟨trivial, hq⟩]
            rfl
          · rw [if_neg (fun hc => hq hc.2)]
            exact ih (attempt + 1) resp (by omega) (by omega)
        | connectionError =>
          simp only [hr]
          by_cases hq : 5 ≤ attempt + 1
          · rw [if_pos ⟨trivial, hq⟩]
            rfl
          · rw [if_neg (fun hc => hq hc.2)]
            exact ih (attempt + 1) resp (by omega) (by omega)
    intro resp
    exact hgen 5 0 resp (by omega) (by omega)

/-! Claim C8: the merge output and the supposed ambiguity counter. -/

/-- C8 (amended): the second return value of `_process_and_merge_data`
is the canonical roster member count of the processed record (0 when the
minimum-roster-size guard rejects the cycle); the output carries no
ambiguity counter. -/
theorem processAndMergeData_count (configRealm : String) (minRosterSize : Int) (lua : LuaData) :
    (processAndMergeData configRealm minRosterSize lua).2 =
      ((processAndMergeData configRealm minRosterSize lua).1.map
        (fun p => p.roster_members.length)).getD 0 := by
  unfold processAndMergeData
  by_cases h : (lua.roster.length : Int) < max 0 minRosterSize
  · simp [h]
  · simp [h]

/-- Raw roster entry used by the C8 counterexample. -/
def c8Raw : RawRosterInfo :=
  { rank := "Officer", level := 80, cls := "MAGE", is_online := none }

/-- Chat aggregate used by the C8 counterexample. -/
def c8Chat : ChatEntry :=
  { total := 5, daily := [], lastMessage := "hi", rankName := "", rankIndex := 0,
    lastSeen := "", lastSeenTS := 100 }

/-- Decoded input for the C8 counterexample: one roster member whose
chat entry resolves by exact canonical match, so no ambiguity occurs. -/
def c8Lua : LuaData :=
  { roster := [("Bob", c8Raw)], data := [("Bob-Main", c8Chat)], stats := [], mythic := [] }

/-- Counterexample for C8: in a cycle with no ambiguous resolution the
claimed counter would have to be 0, but the only numeric value
`_process_and_merge_data` returns alongside the processed record is the
roster member count (1 here), and the processed record itself carries
only members / roster_members / stats / mythic / meta — no ambiguity
counter exists in the output. -/
theorem processAndMerge_no_ambiguity_counter :
    (processAndMergeData "Main" 1 c8Lua).2 = 1 ∧ (1 : Nat) ≠ 0 := by
  constructor
  · decide
  · decide

/-! Lemmas about the stats upload loop and the per-batch trimming. -/

/-- Placeholder snapshot used as the default of positional lookups. -/
def dummySnap : StatsSnap := { iso := "", ts := 0, onlineCount := 0, online := [] }

theorem statsUploadLoop_completed_iff (sid : String) (oracle : Nat → PostReturn) (tb : Nat) :
    ∀ (chunks : List (List StatsSnap)) (bi : Nat),
      (statsUploadLoop sid oracle tb chunks bi).2 = true ↔
        ∀ i, bi ≤ i → i < bi + chunks.length → oracle i ≠ PostReturn.exn := by
  intro chunks
  induction chunks with
  | nil =>
    intro bi
    simp only [statsUploadLoop, List.length_nil]
    constructor
    · intro _ i h1 h2
      exfalso
      omega
    · intro _
      trivial
  | cons chunk rest ih =>
    intro bi
    cases ho : oracle bi with
    | exn =>
      simp only [statsUploadLoop, ho]
      constructor
      · intro hfalse
        exact Bool.noConfusion hfalse
      · intro hall
        exact absurd ho (hall bi (Nat.le_refl bi) (by simp))
    | success =>
      simp only [statsUploadLoop, ho]
      rw [ih (bi + 1)]
      constructor
      · intro hall i h1 h2
        by_cases hib : i = bi
        · subst hib
          rw [ho]
          intro hee
          exact PostReturn.noConfusion hee
        · exact hall i (by omega) (by simp at h2 ⊢; omega)
      · intro hall i h1 h2
        exact hall i (by omega) (by simp at h2 ⊢; omega)
    | queued =>
      simp only [statsUploadLoop, ho]
      rw [ih (bi + 1)]
      constructor
      · intro hall i h1 h2
        by_cases hib : i = bi
        · subst hib
          rw [ho]
          intro hee
          exact PostReturn.noConfusion hee
        · exact hall i (by omega) (by simp at h2 ⊢; omega)
      · intro hall i h1 h2
        exact hall i (by omega) (by simp at h2 ⊢; omega)

theorem statsUploadLoop_trace (sid : String) (oracle : Nat → PostReturn) (tb : Nat) :
    ∀ (chunks : List (List StatsSnap)) (bi : Nat),
      (statsUploadLoop sid oracle tb chunks bi).1.map (fun p => p.stats) =
        (chunks.map clearAllButLast).take (statsUploadLoop sid oracle tb chunks bi).1.length := by
  intro chunks
  induction chunks with
  | nil =>
    intro bi
    rfl
  | cons chunk rest ih =>
    intro bi
    cases ho : oracle bi with
    | exn => simp [statsUploadLoop, ho]
    | success =>
      simp only [statsUploadLoop, ho, List.map_cons, List.length_cons, List.take_succ_cons]
      rw [ih (bi + 1)]
    | queued =>
      simp only [statsUploadLoop, ho, List.map_cons, List.length_cons, List.take_succ_cons]
      rw [ih (bi + 1)]

theorem clearAllButLast_map_onlineCount (l : List StatsSnap) :
    (clearAllButLast l).map (fun s => s.onlineCount) = l.map (fun s => s.onlineCount) := by
  induction l with
  | nil => rfl
  | cons s rest ih =>
    cases rest with
    | nil => rfl
    | cons t rest2 =>
      simp only [clearAllButLast, List.map_cons] at ih ⊢
      rw [ih]

theorem clearAllButLast_map_ts (l : List StatsSnap) :
    (clearAllButLast l).map (fun s => s.ts) = l.map (fun s => s.ts) := by
  induction l with
  | nil => rfl
  | cons s rest ih =>
    cases rest with
    | nil => rfl
    | cons t rest2 =>
      simp only [clearAllButLast, List.map_cons] at ih ⊢
      rw [ih]

theorem clearAllButLast_length (l : List StatsSnap) :
    (clearAllButLast l).length = l.length := by
  induction l with
  | nil => rfl
  | cons s rest ih =>
    cases rest with
    | nil => rfl
    | cons t rest2 =>
      simp only [clearAllButLast, List.length_cons] at ih ⊢
      rw [ih]

theorem clearAllButLast_getLast_eq :
    ∀ (l : List StatsSnap), (clearAllButLast l).getLast? = l.getLast?
  | [] => rfl
  | [_] => rfl
  | s :: t :: rest => by
    have ih := clearAllButLast_getLast_eq (t :: rest)
    rw [clearAllButLast]
    rw [List.getLast?_cons_cons]
    cases hcl : clearAllButLast (t :: rest) with
    | nil =>
      exfalso
      have := clearAllButLast_length (t :: rest)
      rw [hcl] at this
      simp at this
    | cons c cs =>
      rw [hcl] at ih
      rw [List.getLast?_cons_cons]
      exact ih

theorem clearAllButLast_online_empty :
    ∀ (l : List StatsSnap) (j : Nat), j + 1 < (clearAllButLast l).length →
      ((clearAllButLast l).getD j dummySnap).online = []
  | [], j, h => by simp [clearAllButLast] at h
  | [s], j, h => by simp [clearAllButLast] at h
  | s :: t :: rest, j, h => by
    cases j with
    | zero => rfl
    | succ j2 =>
      have h2 : j2 + 1 < (clearAllButLast (t :: rest)).length := by
        rw [clearAllButLast] at h
        simp only [List.length_cons] at h
        omega
      have hrec := clearAllButLast_online_empty (t :: rest) j2 h2
      rw [clearAllButLast]
      simpa using hrec

/-! Claim C1: the stats watermark commit discipline. -/

/-- C1 (amended): the watermark is committed once per stats cycle, after
the batch loop: when no batch raises (each POST returns normally — with
the payload delivered or parked in the local queue after retry
exhaustion) the watermark becomes the maximum timestamp over all of the
cycle's new snapshots, and when any batch of the cycle raises, the
watermark stays unchanged — even for batches that had already succeeded. -/
theorem uploadStats_watermark_commit (sid : String) (bsz : Nat) (oracle : Nat → PostReturn)
    (statsList : List StatsSnap) (w : Int) :
    ((∀ i, 1 ≤ i →
        i < 1 + (chunksOf (max 10 bsz)
          (sortStable snapAscLe (statsList.filter (fun s => w < s.ts)))).length →
        oracle i ≠ PostReturn.exn) →
      0 ≤ w →
      sortStable snapAscLe (statsList.filter (fun s => w < s.ts)) ≠ [] →
      ((∃ s ∈ sortStable snapAscLe (statsList.filter (fun s => w < s.ts)),
          (uploadStatsIncrementalToWeb sid bsz oracle statsList w).2 = s.ts) ∧
        ∀ s ∈ sortStable snapAscLe (statsList.filter (fun s => w < s.ts)),
          s.ts ≤ (uploadStatsIncrementalToWeb sid bsz oracle statsList w).2)) ∧
    ((∃ i, 1 ≤ i ∧
        i < 1 + (chunksOf (max 10 bsz)
          (sortStable snapAscLe (statsList.filter (fun s => w < s.ts)))).length ∧
        oracle i = PostReturn.exn) →
      (uploadStatsIncrementalToWeb sid bsz oracle statsList w).2 = w) := by
  cases hsl : statsList with
  | nil =>
    constructor
    · intro _ _ hne
      exact absurd rfl hne
    · intro _
      rfl
  | cons s0 rest =>
    constructor
    · intro hno hw hne
      have hne0 : (s0 :: rest).filter (fun s => w < s.ts) ≠ [] := by
        intro h0
        apply hne
        rw [h0]
        rfl
      have hcompleted : (statsUploadLoop sid oracle
          (ceilDiv (sortStable snapAscLe ((s0 :: rest).filter (fun s => w < s.ts))).length
            (max 10 bsz))
          (chunksOf (max 10 bsz) (sortStable snapAscLe ((s0 :: rest).filter (fun s => w < s.ts))))
          1).2 = true := by
        rw [statsUploadLoop_completed_iff]
        intro i h1 h2
        exact hno i h1 (by omega)
      have hrun : uploadStatsIncrementalToWeb sid bsz oracle (s0 :: rest) w =
          ((statsUploadLoop sid oracle
            (ceilDiv (sortStable snapAscLe ((s0 :: rest).filter (fun s => w < s.ts))).length
              (max 10 bsz))
            (chunksOf (max 10 bsz)
              (sortStable snapAscLe ((s0 :: rest).filter (fun s => w < s.ts)))) 1).1,
            if ((((sortStable snapAscLe ((s0 :: rest).filter (fun s => w < s.ts))).getLast?).map
                (fun s => s.ts)).getD 0) ≠ 0 then
              ((((sortStable snapAscLe ((s0 :: rest).filter (fun s => w < s.ts))).getLast?).map
                (fun s => s.ts)).getD 0)
            else w) := by
        simp only [uploadStatsIncrementalToWeb]
        rw [if_neg hne0]
        rw [if_pos hcompleted]
      have hlast : (sortStable snapAscLe ((s0 :: rest).filter (fun s => w < s.ts))).getLast? =
          some ((sortStable snapAscLe ((s0 :: rest).filter (fun s => w < s.ts))).getLast hne) :=
        List.getLast?_eq_getLast _ hne
      have hmem : (sortStable snapAscLe ((s0 :: rest).filter (fun s => w < s.ts))).getLast hne ∈
          sortStable snapAscLe ((s0 :: rest).filter (fun s => w < s.ts)) :=
        List.getLast_mem hne
      have htsgt : ∀ s ∈ sortStable snapAscLe ((s0 :: rest).filter (fun s => w < s.ts)),
          w < s.ts := by
        intro s hs
        have := (mem_sortStable snapAscLe s _).1 hs
        have := List.mem_filter.1 this
        simpa using this.2
      have htsne : ((((sortStable snapAscLe ((s0 :: rest).filter (fun s => w < s.ts))).getLast?).map
          (fun s => s.ts)).getD 0) ≠ 0 := by
        rw [hlast]
        have hgt := htsgt _ hmem
        simp only [Option.map_some', Option.getD_some]
        omega
      have hval : (uploadStatsIncrementalToWeb sid bsz oracle (s0 :: rest) w).2 =
          ((sortStable snapAscLe ((s0 :: rest).filter (fun s => w < s.ts))).getLast hne).ts := by
        rw [hrun]
        rw [if_pos htsne]
        rw [hlast]
        simp
      constructor
      · exact ⟨_, hmem, hval⟩
      · intro s hs
        rw [hval]
        have hpw : (sortStable snapAscLe ((s0 :: rest).filter (fun s => w < s.ts))).Pairwise
            (fun a b => a.ts ≤ b.ts) := by
          apply pairwise_sortStable
          · intro a b h
            simpa [snapAscLe] using h
          · intro a b h
            simp [snapAscLe] at h
            omega
          · intro a b c h1 h2
            omega
        rcases pairwise_rel_getLast _ hpw hne s hs with he | hle2
        · rw [he]
        · exact hle2
    · intro hex
      rcases hex with ⟨i, h1, h2, hexn⟩
      by_cases h0 : (s0 :: rest).filter (fun s => w < s.ts) = []
      · simp only [uploadStatsIncrementalToWeb]
        rw [if_pos h0]
      · have hnotc : (statsUploadLoop sid oracle
            (ceilDiv (sortStable snapAscLe ((s0 :: rest).filter (fun s => w < s.ts))).length
              (max 10 bsz))
            (chunksOf (max 10 bsz)
              (sortStable snapAscLe ((s0 :: rest).filter (fun s => w < s.ts)))) 1).2 = false := by
          cases hb : (statsUploadLoop sid oracle
              (ceilDiv (sortStable snapAscLe ((s0 :: rest).filter (fun s => w < s.ts))).length
                (max 10 bsz))
              (chunksOf (max 10 bsz)
                (sortStable snapAscLe ((s0 :: rest).filter (fun s => w < s.ts)))) 1).2 with
          | false => rfl
          | true =>
            exact absurd hexn
              ((statsUploadLoop_completed_iff sid oracle _ _ 1).1 hb i h1 (by omega))
        simp only [uploadStatsIncrementalToWeb]
        rw [if_neg h0]
        rw [if_neg (by simp [hnotc])]

/-- Snapshot with timestamp 10, used by the C1 counterexample. -/
def c1Snap : StatsSnap := { iso := "", ts := 10, onlineCount := 3, online := [] }

/-- Counterexample for C1: a single stats batch exhausts its retries and
is parked in the local durable queue — a failure per the claim, which
demands the watermark stay at 0 so the window is retried next cycle —
yet the source's post call returns normally after queueing, the loop
completes, and the watermark advances to 10. -/
theorem uploadStats_watermark_counterexample :
    (uploadStatsIncrementalToWeb "s" 80 (fun _ => PostReturn.queued) [c1Snap] 0).2 = 10 ∧
      (10 : Int) ≠ 0 := by
  constructor
  · decide
  · decide

/-- Snapshot with timestamp 20, used by the C1 witness. -/
def c1SnapB : StatsSnap := { iso := "", ts := 20, onlineCount := 1, online := [] }

/-- Witness for C1: the commit characterization instantiated at a
two-snapshot cycle whose batches all succeed. -/
theorem uploadStats_watermark_commit_witness :
    (∃ s ∈ sortStable snapAscLe ([c1SnapB, c1Snap].filter (fun s => (0 : Int) < s.ts)),
        (uploadStatsIncrementalToWeb "s" 80 (fun _ => PostReturn.success)
          [c1SnapB, c1Snap] 0).2 = s.ts) ∧
      ∀ s ∈ sortStable snapAscLe ([c1SnapB, c1Snap].filter (fun s => (0 : Int) < s.ts)),
        s.ts ≤ (uploadStatsIncrementalToWeb "s" 80 (fun _ => PostReturn.success)
          [c1SnapB, c1Snap] 0).2 :=
  (uploadStats_watermark_commit "s" 80 (fun _ => PostReturn.success) [c1SnapB, c1Snap] 0).1
    (fun _ _ _ hee => PostReturn.noConfusion hee) (by decide) (by decide)

/-! Claim C7: per-batch trimming of the online maps. -/

/-- C7: every transmitted stats batch equals the corresponding chunk of
the cycle's new snapshots with `clearAllButLast` applied, and that
trimming empties the `online` map of every snapshot but the chunk's own
last one while preserving each snapshot's `onlineCount` (and the last
snapshot itself). -/
theorem statsBatch_online_invariant (sid : String) (bsz : Nat) (oracle : Nat → PostReturn)
    (statsList : List StatsSnap) (w : Int) :
    ((uploadStatsIncrementalToWeb sid bsz oracle statsList w).1.map (fun p => p.stats) =
      ((chunksOf (max 10 bsz)
        (sortStable snapAscLe (statsList.filter (fun s => w < s.ts)))).map
          clearAllButLast).take
        (uploadStatsIncrementalToWeb sid bsz oracle statsList w).1.length) ∧
    (∀ l : List StatsSnap,
      (clearAllButLast l).map (fun s => s.onlineCount) = l.map (fun s => s.onlineCount) ∧
      (clearAllButLast l).getLast? = l.getLast? ∧
      ∀ j, j + 1 < (clearAllButLast l).length →
        ((clearAllButLast l).getD j dummySnap).online = []) := by
  constructor
  · cases hsl : statsList with
    | nil => rfl
    | cons s0 rest =>
      by_cases h0 : (s0 :: rest).filter (fun s => w < s.ts) = []
      · simp only [uploadStatsIncrementalToWeb]
        rw [if_pos h0]
        rfl
      · have hfst : (uploadStatsIncrementalToWeb sid bsz oracle (s0 :: rest) w).1 =
            (statsUploadLoop sid oracle
              (ceilDiv (sortStable snapAscLe ((s0 :: rest).filter (fun s => w < s.ts))).length
                (max 10 bsz))
              (chunksOf (max 10 bsz)
                (sortStable snapAscLe ((s0 :: rest).filter (fun s => w < s.ts)))) 1).1 := by
          simp only [uploadStatsIncrementalToWeb]
          rw [if_neg h0]
          split
          · rfl
          · rfl
        rw [hfst]
        exact statsUploadLoop_trace sid oracle _ _ 1
  · intro l
    exact ⟨clearAllButLast_map_onlineCount l, clearAllButLast_getLast_eq l,
      clearAllButLast_online_empty l⟩

/-- Snapshot carrying a populated online map, used by the C7 witness. -/
def c7Snap : StatsSnap :=
  { iso := ""
    ts := 1
    onlineCount := 2
    online := [("A-R", { cls := "MAGE", level := 80, rank := "Member" })] }

/-- Witness for C7: the trimming facts instantiated at a concrete
two-snapshot batch — the first snapshot's online map is emptied. -/
theorem statsBatch_online_invariant_witness :
    ((clearAllButLast [c7Snap, c1Snap]).getD 0 dummySnap).online = [] :=
  ((statsBatch_online_invariant "s" 80 (fun _ => PostReturn.success) [] 0).2
    [c7Snap, c1Snap]).2.2 0 (by decide)

/-! Claim C4: the chunked transfer never resends an accepted batch and
never skips a key. -/

/-- The member keys of a posted batch when its POST was accepted (the
`master_roster` keys are exactly the batch's keys), `none` otherwise. -/
def acceptedKeys (pc : RosterPayload × ChunkOutcome) : Option (List String) :=
  match pc.2 with
  | ChunkOutcome.accepted => some (pc.1.master_roster.map Prod.fst)
  | _ => none

theorem buildPayload_master_keys (ctx : UploadCtx) (batchKeys : List String)
    (bi tb : Nat) (fin : Bool) :
    (buildPayload ctx batchKeys bi tb fin).master_roster.map Prod.fst = batchKeys := by
  induction batchKeys with
  | nil => rfl
  | cons k ks ih =>
    have hh : (buildPayload ctx (k :: ks) bi tb fin).master_roster.map Prod.fst =
        (match alookup ctx.rosterMembers k with
          | some info =>
            (k, ({ rank := info.rank, lvl := if info.level ≠ 0 then info.level else 80,
                   cls := info.cls } : RosterBrief))
          | none => (k, ({ rank := "Member", lvl := 80, cls := "UNKNOWN" } : RosterBrief))).1 ::
          (buildPayload ctx ks bi tb fin).master_roster.map Prod.fst := rfl
    rw [hh]
    rw [ih]
    cases alookup ctx.rosterMembers k <;> rfl

theorem uploadLoop_ok_join (ctx : UploadCtx) (allKeys : List String)
    (oracle : Nat → ChunkOutcome) :
    ∀ (idx bi bs tb a : Nat) (hbs : 10 ≤ bs) (trace : List (RosterPayload × ChunkOutcome)),
      uploadLoop ctx allKeys oracle idx bi bs tb a hbs = Except.ok trace →
      (trace.filterMap acceptedKeys).flatten = allKeys.drop idx := by
  intro idx bi bs tb a hbs
  induction idx, bi, bs, tb, a, hbs using uploadLoop.induct ctx allKeys oracle with
  | case1 idx bi bs tb a hbs hlt ho rest hrec ih =>
    intro trace hok
    rw [uploadLoop.eq_def] at hok
    rw [dif_pos hlt] at hok
    simp only [ho, hrec] at hok
    have ht := Except.ok.inj hok
    subst ht
    simp only [List.filterMap_cons, acceptedKeys, List.flatten_cons]
    rw [buildPayload_master_keys]
    rw [ih rest hrec]
    have hdd : allKeys.drop (idx + bs) = (allKeys.drop idx).drop bs := by
      rw [List.drop_drop]
    rw [hdd]
    exact List.take_append_drop _ _
  | case2 idx bi bs tb a hbs hlt ho e hrec ih =>
    intro trace hok
    rw [uploadLoop.eq_def] at hok
    rw [dif_pos hlt] at hok
    simp only [ho, hrec] at hok
    exact Except.noConfusion hok
  | case3 idx bi bs tb a hbs hlt ho hfloor =>
    intro trace hok
    rw [uploadLoop.eq_def] at hok
    rw [dif_pos hlt] at hok
    simp only [ho] at hok
    rw [dif_pos hfloor] at hok
    exact Except.noConfusion hok
  | case4 idx bi bs tb a hbs hlt ho hfloor newBs rest hrec ih =>
    intro trace hok
    rw [uploadLoop.eq_def] at hok
    rw [dif_pos hlt] at hok
    simp only [ho] at hok
    rw [dif_neg hfloor] at hok
    unfold_let newBs at hrec
    simp only [hrec] at hok
    have ht := Except.ok.inj hok
    subst ht
    simp only [List.filterMap_cons, acceptedKeys]
    exact ih rest hrec
  | case5 idx bi bs tb a hbs hlt ho hfloor newBs e hrec ih =>
    intro trace hok
    rw [uploadLoop.eq_def] at hok
    rw [dif_pos hlt] at hok
    simp only [ho] at hok
    rw [dif_neg hfloor] at hok
    unfold_let newBs at hrec
    simp only [hrec] at hok
    exact Except.noConfusion hok
  | case6 idx bi bs tb a hbs hlt ho =>
    intro trace hok
    rw [uploadLoop.eq_def] at hok
    rw [dif_pos hlt] at hok
    simp only [ho] at hok
    exact Except.noConfusion hok
  | case7 idx bi bs tb a hbs hlt =>
    intro trace hok
    rw [uploadLoop.eq_def] at hok
    rw [dif_neg hlt] at hok
    have ht := Except.ok.inj hok
    rw [← ht]
    simp only [List.filterMap_nil, List.flatten_nil]
    rw [List.drop_eq_nil_of_le (by omega)]

/-- C4: over a whole chunked roster transfer — whatever sequence of
oversize rejections the transport reports, each answered by halving the
batch size (floor 10) and retrying the same unsent index — the keys of
the accepted batches, in order, are exactly the transfer's key list: no
already-accepted batch is resent and no member key is skipped. -/
theorem chunked_transfer_covers_keys (ctx : UploadCtx) (allKeys : List String)
    (oracle : Nat → ChunkOutcome) (bs0 tb0 : Nat) (hbs : 10 ≤ bs0)
    (trace : List (RosterPayload × ChunkOutcome))
    (hok : uploadLoop ctx allKeys oracle 0 1 bs0 tb0 1 hbs = Except.ok trace) :
    (trace.filterMap acceptedKeys).flatten = allKeys := by
  have := uploadLoop_ok_join ctx allKeys oracle 0 1 bs0 tb0 1 hbs trace hok
  simpa using this

/-- Sample context for the C4 witness (an empty member map leaves the
payload bodies at their defaults; only the keys matter here). -/
def c4Ctx : UploadCtx :=
  { sid := "s", rosterMembers := [], removed := [], mode := "delta", reason := "delta",
    addedCount := 0, updatedCount := 0, removedCount := 0, processedTotal := 3 }

/-- Oracle for the C4 witness: first POST is rejected as oversize, every
later POST is accepted. -/
def c4Oracle : Nat → ChunkOutcome :=
  fun a => if a = 1 then ChunkOutcome.oversize else ChunkOutcome.accepted

/-- The single batch payload of the C4 witness run. -/
def c4Payload : RosterPayload := buildPayload c4Ctx ["a", "b", "c"] 1 1 true

/-- Witness for C4: a transfer of three keys whose first POST is
rejected as oversize (shrinking 80 to 40) and then accepted delivers
exactly the three keys, in order, across its accepted batches. -/
theorem chunked_transfer_covers_keys_witness :
    (([(c4Payload, ChunkOutcome.oversize), (c4Payload, ChunkOutcome.accepted)].filterMap
      acceptedKeys).flatten) = ["a", "b", "c"] :=
  chunked_transfer_covers_keys c4Ctx ["a", "b", "c"] c4Oracle 80 1 (by omega)
    [(c4Payload, ChunkOutcome.oversize), (c4Payload, ChunkOutcome.accepted)]
    (by simp [uploadLoop, c4Oracle, c4Payload, ceilDiv, c4Ctx])

/-! Claim C9: the session_phase tag. -/

/-- The phase a payload's own header fields dictate: final for a
single-batch transfer, start for batch 1 of a multi-batch transfer,
final for the last batch, chunk in between. -/
def phaseOf (p : RosterPayload) : String :=
  if p.total_batches = 1 then "final"
  else if p.batch_index = 1 then "start"
  else if p.is_final_batch then "final"
  else "chunk"

theorem buildPayload_phase (ctx : UploadCtx) (keys : List String) (bi tb : Nat) (fin : Bool) :
    (buildPayload ctx keys bi tb fin).session_phase =
      some (phaseOf (buildPayload ctx keys bi tb fin)) := rfl

theorem uploadLoop_ok_phase (ctx : UploadCtx) (allKeys : List String)
    (oracle : Nat → ChunkOutcome) :
    ∀ (idx bi bs tb a : Nat) (hbs : 10 ≤ bs) (trace : List (RosterPayload × ChunkOutcome)),
      uploadLoop ctx allKeys oracle idx bi bs tb a hbs = Except.ok trace →
      ∀ pc ∈ trace, pc.1.session_phase = some (phaseOf pc.1) := by
  intro idx bi bs tb a hbs
  induction idx, bi, bs, tb, a, hbs using uploadLoop.induct ctx allKeys oracle with
  | case1 idx bi bs tb a hbs hlt ho rest hrec ih =>
    intro trace hok pc hpc
    rw [uploadLoop.eq_def] at hok
    rw [dif_pos hlt] at hok
    simp only [ho, hrec] at hok
    have ht := Except.ok.inj hok
    subst ht
    rcases List.mem_cons.1 hpc with rfl | hpc2
    · exact buildPayload_phase _ _ _ _ _
    · exact ih rest hrec pc hpc2
  | case2 idx bi bs tb a hbs hlt ho e hrec ih =>
    intro trace hok
    rw [uploadLoop.eq_def] at hok
    rw [dif_pos hlt] at hok
    simp only [ho, hrec] at hok
    exact Except.noConfusion hok
  | case3 idx bi bs tb a hbs hlt ho hfloor =>
    intro trace hok
    rw [uploadLoop.eq_def] at hok
    rw [dif_pos hlt] at hok
    simp only [ho] at hok
    rw [dif_pos hfloor] at hok
    exact Except.noConfusion hok
  | case4 idx bi bs tb a hbs hlt ho hfloor newBs rest hrec ih =>
    intro trace hok pc hpc
    rw [uploadLoop.eq_def] at hok
    rw [dif_pos hlt] at hok
    simp only [ho] at hok
    rw [dif_neg hfloor] at hok
    unfold_let newBs at hrec
    simp only [hrec] at hok
    have ht := Except.ok.inj hok
    subst ht
    rcases List.mem_cons.1 hpc with rfl | hpc2
    · exact buildPayload_phase _ _ _ _ _
    · exact ih rest hrec pc hpc2
  | case5 idx bi bs tb a hbs hlt ho hfloor newBs e hrec ih =>
    intro trace hok
    rw [uploadLoop.eq_def] at hok
    rw [dif_pos hlt] at hok
    simp only [ho] at hok
    rw [dif_neg hfloor] at hok
    unfold_let newBs at hrec
    simp only [hrec] at hok
    exact Except.noConfusion hok
  | case6 idx bi bs tb a hbs hlt ho =>
    intro trace hok
    rw [uploadLoop.eq_def] at hok
    rw [dif_pos hlt] at hok
    simp only [ho] at hok
    exact Except.noConfusion hok
  | case7 idx bi bs tb a hbs hlt =>
    intro trace hok pc hpc
    rw [uploadLoop.eq_def] at hok
    rw [dif_neg hlt] at hok
    have ht := Except.ok.inj hok
    rw [← ht] at hpc
    simp at hpc

theorem uploadLoop_ok_nil (ctx : UploadCtx) (allKeys : List String)
    (oracle : Nat → ChunkOutcome) :
    ∀ (idx bi bs tb a : Nat) (hbs : 10 ≤ bs) (trace : List (RosterPayload × ChunkOutcome)),
      uploadLoop ctx allKeys oracle idx bi bs tb a hbs = Except.ok trace →
      (trace = [] ↔ allKeys.length ≤ idx) := by
  intro idx bi bs tb a hbs
  induction idx, bi, bs, tb, a, hbs using uploadLoop.induct ctx allKeys oracle with
  | case1 idx bi bs tb a hbs hlt ho rest hrec ih =>
    intro trace hok
    rw [uploadLoop.eq_def] at hok
    rw [dif_pos hlt] at hok
    simp only [ho, hrec] at hok
    have ht := Except.ok.inj hok
    subst ht
    constructor
    · intro hc
      exact List.noConfusion hc
    · intro hl
      exact absurd hl (by omega)
  | case2 idx bi bs tb a hbs hlt ho e hrec ih =>
    intro trace hok
    rw [uploadLoop.eq_def] at hok
    rw [dif_pos hlt] at hok
    simp only [ho, hrec] at hok
    exact Except.noConfusion hok
  | case3 idx bi bs tb a hbs hlt ho hfloor =>
    intro trace hok
    rw [uploadLoop.eq_def] at hok
    rw [dif_pos hlt] at hok
    simp only [ho] at hok
    rw [dif_pos hfloor] at hok
    exact Except.noConfusion hok
  | case4 idx bi bs tb a hbs hlt ho hfloor newBs rest hrec ih =>
    intro trace hok
    rw [uploadLoop.eq_def] at hok
    rw [dif_pos hlt] at hok
    simp only [ho] at hok
    rw [dif_neg hfloor] at hok
    unfold_let newBs at hrec
    simp only [hrec] at hok
    have ht := Except.ok.inj hok
    subst ht
    constructor
    · intro hc
      exact List.noConfusion hc
    · intro hl
      exact absurd hl (by omega)
  | case5 idx bi bs tb a hbs hlt ho hfloor newBs e hrec ih =>
    intro trace hok
    rw [uploadLoop.eq_def] at hok
    rw [dif_pos hlt] at hok
    simp only [ho] at hok
    rw [dif_neg hfloor] at hok
    unfold_let newBs at hrec
    simp only [hrec] at hok
    exact Except.noConfusion hok
  | case6 idx bi bs tb a hbs hlt ho =>
    intro trace hok
    rw [uploadLoop.eq_def] at hok
    rw [dif_pos hlt] at hok
    simp only [ho] at hok
    exact Except.noConfusion hok
  | case7 idx bi bs tb a hbs hlt =>
    intro trace hok
    rw [uploadLoop.eq_def] at hok
    rw [dif_neg hlt] at hok
    have ht := Except.ok.inj hok
    rw [← ht]
    constructor
    · intro _
      omega
    · intro _
      rfl

theorem uploadLoop_ok_last (ctx : UploadCtx) (allKeys : List String)
    (oracle : Nat → ChunkOutcome) :
    ∀ (idx bi bs tb a : Nat) (hbs : 10 ≤ bs) (trace : List (RosterPayload × ChunkOutcome)),
      uploadLoop ctx allKeys oracle idx bi bs tb a hbs = Except.ok trace →
      ∀ (hne : trace ≠ []),
        (trace.getLast hne).2 = ChunkOutcome.accepted ∧
          (trace.getLast hne).1.is_final_batch = true := by
  intro idx bi bs tb a hbs
  induction idx, bi, bs, tb, a, hbs using uploadLoop.induct ctx allKeys oracle with
  | case1 idx bi bs tb a hbs hlt ho rest hrec ih =>
    intro trace hok
    rw [uploadLoop.eq_def] at hok
    rw [dif_pos hlt] at hok
    simp only [ho, hrec] at hok
    have ht := Except.ok.inj hok
    subst ht
    intro hne
    cases rest with
    | nil =>
      have hlen : allKeys.length ≤ idx + bs :=
        (uploadLoop_ok_nil ctx allKeys oracle _ _ _ _ _ _ [] hrec).1 rfl
      constructor
      · rfl
      · simp [buildPayload]
        omega
    | cons r0 rs =>
      rw [List.getLast_cons (by simp)]
      exact ih (r0 :: rs) hrec (by simp)
  | case2 idx bi bs tb a hbs hlt ho e hrec ih =>
    intro trace hok
    rw [uploadLoop.eq_def] at hok
    rw [dif_pos hlt] at hok
    simp only [ho, hrec] at hok
    exact Except.noConfusion hok
  | case3 idx bi bs tb a hbs hlt ho hfloor =>
    intro trace hok
    rw [uploadLoop.eq_def] at hok
    rw [dif_pos hlt] at hok
    simp only [ho] at hok
    rw [dif_pos hfloor] at hok
    exact Except.noConfusion hok
  | case4 idx bi bs tb a hbs hlt ho hfloor newBs rest hrec ih =>
    intro trace hok
    rw [uploadLoop.eq_def] at hok
    rw [dif_pos hlt] at hok
    simp only [ho] at hok
    rw [dif_neg hfloor] at hok
    unfold_let newBs at hrec
    simp only [hrec] at hok
    have ht := Except.ok.inj hok
    subst ht
    intro hne
    cases rest with
    | nil =>
      exfalso
      have hlen := (uploadLoop_ok_nil ctx allKeys oracle _ _ _ _ _ _ [] hrec).1 rfl
      omega
    | cons r0 rs =>
      rw [List.getLast_cons (by simp)]
      exact ih (r0 :: rs) hrec (by simp)
  | case5 idx bi bs tb a hbs hlt ho hfloor newBs e hrec ih =>
    intro trace hok
    rw [uploadLoop.eq_def] at hok
    rw [dif_pos hlt] at hok
    simp only [ho] at hok
    rw [dif_neg hfloor] at hok
    unfold_let newBs at hrec
    simp only [hrec] at hok
    exact Except.noConfusion hok
  | case6 idx bi bs tb a hbs hlt ho =>
    intro trace hok
    rw [uploadLoop.eq_def] at hok
    rw [dif_pos hlt] at hok
    simp only [ho] at hok
    exact Except.noConfusion hok
  | case7 idx bi bs tb a hbs hlt =>
    intro trace hok
    rw [uploadLoop.eq_def] at hok
    rw [dif_neg hlt] at hok
    have ht := Except.ok.inj hok
    rw [← ht]
    intro hne
    exact absurd rfl hne

/-- C9 (amended): every batch payload built by `build_payload` carries a
`session_phase` field whose value follows the payload's own header —
final for a single-batch transfer (`total_batches` 1), start for batch 1
of a multi-batch transfer, final for the last batch, chunk in between —
and every successful chunked run ends with an accepted, final batch; the
no-change heartbeat payload, however, carries no `session_phase` field
at all. -/
theorem session_phase_characterization :
    (∀ (sid : String) (n : Nat), (heartbeatPayload sid n).session_phase = none) ∧
    (∀ (ctx : UploadCtx) (allKeys : List String) (oracle : Nat → ChunkOutcome)
      (idx bi bs tb a : Nat) (hbs : 10 ≤ bs) (trace : List (RosterPayload × ChunkOutcome)),
      uploadLoop ctx allKeys oracle idx bi bs tb a hbs = Except.ok trace →
      ∀ pc ∈ trace, pc.1.session_phase = some (phaseOf pc.1)) ∧
    (∀ (ctx : UploadCtx) (allKeys : List String) (oracle : Nat → ChunkOutcome)
      (idx bi bs tb a : Nat) (hbs : 10 ≤ bs) (trace : List (RosterPayload × ChunkOutcome)),
      uploadLoop ctx allKeys oracle idx bi bs tb a hbs = Except.ok trace →
      ∀ (hne : trace ≠ []),
        (trace.getLast hne).2 = ChunkOutcome.accepted ∧
          (trace.getLast hne).1.is_final_batch = true) := by
  refine ⟨fun _ _ => rfl, ?_, ?_⟩
  · intro ctx allKeys oracle idx bi bs tb a hbs trace hok
    exact uploadLoop_ok_phase ctx allKeys oracle idx bi bs tb a hbs trace hok
  · intro ctx allKeys oracle idx bi bs tb a hbs trace hok
    exact uploadLoop_ok_last ctx allKeys oracle idx bi bs tb a hbs trace hok

/-- Member used by the C9 counterexample's no-change cycle. -/
def c9Member : MemberInfo := sampleMember 80 100

/-- Processed data for the C9 counterexample. -/
def c9Processed : ProcessedData :=
  { members := [("A-R", c9Member)]
    roster_members := [("A-R", c9Member)]
    stats := []
    mythic := []
    defaultRealm := "R" }

/-- Engine state whose snapshot equals the current projection, so the
cycle takes the no-change heartbeat path. -/
def c9State : BridgeState :=
  { last_uploaded_stats_ts := 0, roster_snapshot := buildRosterSnapshot [("A-R", c9Member)] }

/-- Counterexample for C9: a concrete no-change cycle posts exactly one
payload — the heartbeat — and that payload carries no session_phase
field (the claim says every payload, including the heartbeat, carries
one). -/
theorem heartbeat_lacks_session_phase :
    (uploadChunkedToWeb 80 c9State c9Processed "s" false "" (fun _ => ChunkOutcome.accepted)).map
      (fun r => r.1.map (fun pc => pc.1.session_phase)) = Except.ok [none] := by
  decide

/-! Claim C2: the roster snapshot commit. -/

/-- Unchanged member of the C2 scenario. -/
def c2MemA : MemberInfo := sampleMember 80 100

/-- Prior state of the member that changes in the C2 scenario. -/
def c2MemBold : MemberInfo := sampleMember 70 50

/-- Updated state of the changed member in the C2 scenario. -/
def c2MemBnew : MemberInfo := sampleMember 71 60

/-- Current merged roster of the C2 scenario: A-R unchanged, B-R
updated. -/
def c2Roster : List (String × MemberInfo) := [("A-R", c2MemA), ("B-R", c2MemBnew)]

/-- Processed data of the C2 scenario. -/
def c2Processed : ProcessedData :=
  { members := c2Roster, roster_members := c2Roster, stats := [], mythic := [], defaultRealm := "R" }

/-- Engine state of the C2 scenario: the prior snapshot holds A-R as-is
and the old B-R, so the delta transfers only B-R. -/
def c2State : BridgeState :=
  { last_uploaded_stats_ts := 0
    roster_snapshot := buildRosterSnapshot [("A-R", c2MemA), ("B-R", c2MemBold)] }

/-- The delta-mode upload context the C2 run builds internally. -/
def c2Ctx : UploadCtx :=
  { sid := "s", rosterMembers := [("B-R", c2MemBnew)], removed := [], mode := "delta",
    reason := "delta", addedCount := 0, updatedCount := 1, removedCount := 0,
    processedTotal := 2 }

/-- The single batch payload of the C2 run. -/
def c2Payload : RosterPayload := buildPayload c2Ctx ["B-R"] 1 1 true

/-- The state the C2 run commits. -/
def c2State2 : BridgeState :=
  { last_uploaded_stats_ts := 0, roster_snapshot := buildRosterSnapshot c2Roster }

/-- C2 (amended): whenever `_upload_chunked_to_web` completes normally —
in full, delta or no-change mode — the persisted `rosterSnapshot` is
overwritten with the lightweight projection of the processed data's
entire merged roster (`roster_members`, falling back to `members`), not
of the members transferred in that cycle. -/
theorem uploadChunked_ok_commit (cfg : Nat) (st : BridgeState) (processed : ProcessedData)
    (sid : String) (ff : Bool) (fr : String) (oracle : Nat → ChunkOutcome)
    (trace : List (RosterPayload × ChunkOutcome)) (st2 : BridgeState)
    (h : uploadChunkedToWeb cfg st processed sid ff fr oracle = Except.ok (trace, st2))
    (hne : (if processed.roster_members ≠ [] then processed.roster_members
        else processed.members) ≠ []) :
    st2.roster_snapshot = buildRosterSnapshot
      (if processed.roster_members ≠ [] then processed.roster_members
        else processed.members) := by
  simp only [uploadChunkedToWeb] at h
  rw [if_neg hne] at h
  repeat' split at h
  all_goals first
  | exact Except.noConfusion h
  | (simp only [Except.ok.injEq, Prod.mk.injEq] at h
     rw [← h.2]
     first
     | rfl
     | (split
        · first | rfl | contradiction
        · first | rfl | contradiction))

/-- Witness for C2: the commit theorem instantiated at the concrete
delta run of the C2 scenario. -/
theorem uploadChunked_ok_commit_witness :
    c2State2.roster_snapshot = buildRosterSnapshot
      (if c2Processed.roster_members ≠ [] then c2Processed.roster_members
        else c2Processed.members) :=
  uploadChunked_ok_commit 80 c2State c2Processed "s" false "" (fun _ => ChunkOutcome.accepted)
    [(c2Payload, ChunkOutcome.accepted)] c2State2
    (by simp [uploadChunkedToWeb, computeRosterDelta, buildRosterSnapshot, alookup, sampleMember,
      initRosterEntry, c2State, c2Processed, c2Roster, c2MemA, c2MemBold, c2MemBnew, uploadLoop,
      ceilDiv, buildPayload, c2Ctx, c2Payload, c2State2])
    (by decide)

/-- Counterexample for C2: in the concrete delta run only B-R is
transferred, yet the persisted snapshot is the projection of the entire
merged roster, which differs from the projection of the transferred
members alone. -/
theorem roster_commit_counterexample :
    (uploadChunkedToWeb 80 c2State c2Processed "s" false ""
        (fun _ => ChunkOutcome.accepted)).map (fun r => r.2.roster_snapshot) =
      Except.ok (buildRosterSnapshot c2Roster) ∧
    buildRosterSnapshot c2Roster ≠ buildRosterSnapshot [("B-R", c2MemBnew)] := by
  constructor
  · simp [uploadChunkedToWeb, computeRosterDelta, buildRosterSnapshot, alookup, sampleMember,
      initRosterEntry, c2State, c2Processed, c2Roster, c2MemA, c2MemBold, c2MemBnew, uploadLoop,
      ceilDiv, buildPayload, Except.map]
  · decide

/-! Claim C10: an oversize rejection at the floor aborts the cycle
without touching the snapshot. -/

/-- C10: when the chunked upload propagates an exception, the cycle
leaves the engine state untouched (the persisted `rosterSnapshot` in
particular), and an oversize rejection while the batch size is already
at the floor of 10 aborts by re-raising the oversize error instead of
retrying. -/
theorem chunked_abort_preserves_snapshot :
    (∀ (cfg : Nat) (st : BridgeState) (processed : ProcessedData) (sid : String) (ff : Bool)
      (fr : String) (oracle : Nat → ChunkOutcome) (e : UploadError),
      uploadChunkedToWeb cfg st processed sid ff fr oracle = Except.error e →
      runCycleRoster cfg st processed sid ff fr oracle = st) ∧
    (∀ (ctx : UploadCtx) (allKeys : List String) (oracle : Nat → ChunkOutcome)
      (idx bi tb a : Nat) (h10 : 10 ≤ 10), idx < allKeys.length →
      oracle a = ChunkOutcome.oversize →
      uploadLoop ctx allKeys oracle idx bi 10 tb a h10 = Except.error UploadError.tooLarge413) := by
  constructor
  · intro cfg st processed sid ff fr oracle e h
    unfold runCycleRoster
    rw [h]
  · intro ctx allKeys oracle idx bi tb a h10 hidx ho
    rw [uploadLoop.eq_def]
    rw [dif_pos hidx]
    simp only [ho]
    rw [dif_pos (by omega : (10 : Nat) ≤ 10)]

end GuildBridge
